import Mathlib

/-!
# jira-metrics: sprint report classifier and discipline resolver

A shallow embedding of `pkg/helper/issues_helper.go` and of the method `Convert`
of `pkg/googlesheets/sheet_row.go`, together with the data types of `pkg/jira`
and `pkg/googlesheets` that they read and write.

* Go `string` is a Lean `String`; regular expressions work on its characters.
* Go `int` is the 64-bit two's-complement integer: an `Int` kept in range by `wrapInt`.
* Go `float64` is `Float64`: finite dyadic values, NaN and the infinities.
* Go `map` is an association list read with `List.lookup`.
* The package-level cache `disciplines`, the requests sent to the tracker and
  the text printed on standard output are the fields of `World`, which every
  effectful function takes and returns.
* What the program cannot decide by itself (the answers of the tracker, the
  order in which `range` walks a map, the standard library's URL functions)
  is a field of `Env`.
* A function that can panic returns an `Option`, and `none` is the panic: the
  one place is `generateJiraLink`, which drops the error of `url.Parse`.
-/

namespace JiraMetrics

/-! ## Machine integers and floats -/

/-- Smallest value of a Go `int` on a 64-bit target. -/
def minInt : Int := -9223372036854775808

/-- Largest value of a Go `int` on a 64-bit target. -/
def maxInt : Int := 9223372036854775807

/-- Two's-complement wrap-around of 64-bit `int` arithmetic. -/
def wrapInt (z : Int) : Int :=
  (z + 9223372036854775808) % 18446744073709551616 - 9223372036854775808

/-- A Go `float64`. A finite value is `mant * 2 ^ exp`; every finite float64 has this
shape (with `|mant| < 2 ^ 53`), so a statement about all `finite mant exp` covers them. -/
inductive Float64 where
  | finite (mant : Int) (exp : Int)
  | nan
  | inf (negative : Bool)
  deriving DecidableEq, Repr

/-- The integer part (rounding toward zero) of the finite value `mant * 2 ^ exp`. -/
def Float64.truncate (mant exp : Int) : Int :=
  if 0 ≤ exp then mant * ((2 ^ exp.toNat : Nat) : Int)
  else Int.tdiv mant ((2 ^ (-exp).toNat : Nat) : Int)

/-- The conversion `int(f)`: the fraction is discarded. When the result does not fit in
an `int` (also for NaN and the infinities) Go leaves the value to the implementation;
this is what amd64 produces, the smallest `int`. -/
def Float64.toInt : Float64 → Int
  | .finite mant exp =>
    if minInt ≤ Float64.truncate mant exp ∧ Float64.truncate mant exp ≤ maxInt then
      Float64.truncate mant exp
    else minInt
  | .nan => minInt
  | .inf _ => minInt

/-- The float64 `f` is finite and its value is exactly the integer `e`. -/
def Float64.IsInteger (f : Float64) (e : Int) : Prop :=
  match f with
  | .finite mant exp =>
    if 0 ≤ exp then mant * ((2 ^ exp.toNat : Nat) : Int) = e
    else mant = e * ((2 ^ (-exp).toNat : Nat) : Int)
  | .nan => False
  | .inf _ => False

instance Float64.decidableIsInteger : (f : Float64) → (e : Int) → Decidable (f.IsInteger e)
  | .finite mant exp, e =>
    inferInstanceAs (Decidable (if 0 ≤ exp then mant * ((2 ^ exp.toNat : Nat) : Int) = e
      else mant = e * ((2 ^ (-exp).toNat : Nat) : Int)))
  | .nan, _ => inferInstanceAs (Decidable False)
  | .inf _, _ => inferInstanceAs (Decidable False)

/-! ## Regular expressions (package `regexp`)

The patterns of this repository only repeat single-character classes, so the
syntax tree has a star for classes alone. `run` lists the ways a pattern can
match at the start of the input, best first: it is the backtracking order,
which is the leftmost-first rule of Go's `regexp`. -/

/-- The text captured so far, newest first: group number and captured characters. -/
abbrev Captures := List (Nat × List Char)

/-- The syntax of the regular expressions used by the repository. -/
inductive Regexp where
  | empty : Regexp
  | char (p : Char → Bool) : Regexp
  | star (p : Char → Bool) : Regexp
  | opt (r : Regexp) : Regexp
  | cat (r s : Regexp) : Regexp
  | alt (r s : Regexp) : Regexp
  | group (n : Nat) (r : Regexp) : Regexp

/-- The remainders left by a greedy `p*`, longest match first. -/
def starRun (p : Char → Bool) : List Char → List (List Char)
  | [] => [[]]
  | c :: cs => if p c then starRun p cs ++ [c :: cs] else [c :: cs]

/-- All matches of a pattern at the start of `s`, in order of preference: the captures
and the input that remains after the match. -/
def Regexp.run : Regexp → Captures → List Char → List (Captures × List Char)
  | .empty, caps, s => [(caps, s)]
  | .char p, caps, s =>
    match s with
    | [] => []
    | c :: cs => if p c then [(caps, cs)] else []
  | .star p, caps, s => (starRun p s).map (fun rest => (caps, rest))
  | .opt r, caps, s => r.run caps s ++ [(caps, s)]
  | .cat r t, caps, s => (r.run caps s).flatMap (fun m => t.run m.1 m.2)
  | .alt r t, caps, s => r.run caps s ++ t.run caps s
  | .group n r, caps, s =>
    (r.run caps s).map (fun m => ((n, s.take (s.length - m.2.length)) :: m.1, m.2))

/-- The leftmost match: the input from where the match starts, its captures and the
input that remains after it. -/
def Regexp.search (re : Regexp) : List Char → Option (List Char × Captures × List Char)
  | [] => (re.run [] []).head?.map (fun m => ([], m))
  | c :: cs =>
    match re.run [] (c :: cs) with
    | m :: _ => some (c :: cs, m)
    | [] => Regexp.search re cs

/-- The number of capture groups of a pattern. -/
def Regexp.numGroups : Regexp → Nat
  | .empty => 0
  | .char _ => 0
  | .star _ => 0
  | .opt r => r.numGroups
  | .cat r t => max r.numGroups t.numGroups
  | .alt r t => max r.numGroups t.numGroups
  | .group n r => max n r.numGroups

/-- The method `(*Regexp).MatchString`: does the pattern match anywhere in `s`? -/
def Regexp.MatchString (re : Regexp) (s : String) : Bool :=
  (re.search s.toList).isSome

/-- The method `(*Regexp).FindStringSubmatch`: the text of the leftmost match followed by
the text of each capture group (empty for a group that took no part); no entries at
all when there is no match. -/
def Regexp.FindStringSubmatch (re : Regexp) (s : String) : List String :=
  match re.search s.toList with
  | none => []
  | some (start, caps, rest) =>
    String.mk (start.take (start.length - rest.length)) ::
      (List.range re.numGroups).map (fun i => String.mk ((caps.lookup (i + 1)).getD []))

/-- The concatenation of a list of patterns. -/
def Regexp.seq : List Regexp → Regexp
  | [] => .empty
  | r :: rs => .cat r (Regexp.seq rs)

/-- The class `.`: any character but a line feed. -/
def anyChar (c : Char) : Bool := c != '\n'

/-- The class `\s`: tab, line feed, form feed, carriage return, space. -/
def perlSpace (c : Char) : Bool :=
  c == '\t' || c == '\n' || c == Char.ofNat 12 || c == '\r' || c == ' '

/-- The class `\d`: an ASCII digit. -/
def perlDigit (c : Char) : Bool := '0' ≤ c && c ≤ '9'

/-- A representative of the case-folding orbit of a character, for the orbits of ASCII
characters: a letter and its other case, and the two orbits with a third member,
the Kelvin sign (with k) and the long s (with s). -/
def foldKey (c : Char) : Char :=
  if c = Char.ofNat 0x212A then 'k'
  else if c = Char.ofNat 0x017F then 's'
  else c.toLower

/-- A literal character. -/
def lit (c : Char) : Regexp := .char (fun x => x == c)

/-- A literal string. -/
def str (s : String) : Regexp := Regexp.seq (s.toList.map lit)

/-- A literal character under the flag `(?i)`. -/
def litFold (c : Char) : Regexp := .char (fun x => foldKey x == foldKey c)

/-- A literal string under the flag `(?i)`. -/
def strFold (s : String) : Regexp := Regexp.seq (s.toList.map litFold)

/-- The negated class `[^...]` under the flag `(?i)`: a character none of whose case
variants is listed. -/
def noneOfFold (set : String) (x : Char) : Bool :=
  !(set.toList.any (fun c => foldKey x == foldKey c))

/-! ## Data model (packages `jira` and `googlesheets`)

Only the fields that the helper reads are kept. -/

/-- The Go type `jira.Fieldvalue`. -/
structure Fieldvalue where
  Value : Float64
  Text : String

/-- The Go type `jira.Statistic`. -/
structure Statistic where
  StatFieldID : String
  StatFieldValue : Fieldvalue

/-- The Go type `jira.Issue`: an issue of a sprint report. -/
structure Issue where
  Key : String
  Summary : String
  CurrentEstimateStatistic : Statistic
  EstimateStatistic : Statistic

/-- The Go type `jira.IssuesAdded`, a `map[string]bool`. -/
abbrev IssuesAdded := List (String × Bool)

/-- The Go type `jira.Contents`. -/
structure Contents where
  CompletedIssues : List Issue
  IssuesNotCompletedInCurrentSprint : List Issue
  PuntedIssues : List Issue
  IssueKeysAddedDuringSprint : IssuesAdded

/-- The Go type `jira.Sprint`. -/
structure Sprint where
  Name : String

/-- The Go type `jira.ReportResponse`. -/
structure ReportResponse where
  Contents : Contents
  Sprint : Sprint

/-- The Go type `jira.Component`. -/
structure Component where
  Name : String
  Description : String

/-- The Go type `jira.Discipline`, the custom field. -/
structure Discipline where
  ID : String
  Value : String

/-- The Go type `jira.Fields`. -/
structure Fields where
  Components : List Component
  Discipline : Discipline

/-- The Go type `jira.SimpleIssue`: the details of one issue. -/
structure SimpleIssue where
  ID : String
  Key : String
  Fields : Fields

/-- The Go type `googlesheets.MySheetRow`. -/
structure MySheetRow where
  Sprint : String
  Dicipline : String
  TicketNumber : String
  Title : String
  Link : String
  Commited : Int
  Dropped : Int
  Added : Int
  Adjusted : Int
  CarriedOver : Int
  Completed : Int
  deriving DecidableEq, Repr

/-- The Go type `googlesheets.MySheetRowArray`. -/
abbrev MySheetRowArray := List MySheetRow

/-! ## State and environment -/

/-- The mutable state around the helper. -/
structure World where
  /-- The package-level variable `disciplines`. -/
  disciplines : List (String × String)
  /-- The keys passed to `srv.Get` so far, oldest first. -/
  fetched : List String
  /-- How many times `regexMap` has been ranged over. -/
  ranged : Nat
  /-- The lines printed so far, oldest first. -/
  stdout : List String
  deriving DecidableEq, Repr

/-- Assignment `m[k] = v` on a map. -/
def mapSet (k v : String) (m : List (String × String)) : List (String × String) :=
  (k, v) :: m.filter (fun e => e.1 != k)

/-- The Go type `url.URL`, as far as an endpoint fills it. -/
structure URL where
  Scheme : String
  Host : String
  Path : String
  deriving DecidableEq, Repr

/-- What the helper depends on and the source does not fix. -/
structure Env where
  /-- The field `srv.EndpointPrefix`. -/
  EndpointPrefix : String
  /-- The method `srv.Get`: the answer of the tracker to a request for a key, given the
  keys requested before. -/
  Get : List String → String → Except String SimpleIssue
  /-- The order in which the n-th `range regexMap` visits the entries. -/
  rangeOrder : Nat → List (String × Regexp)
  /-- The function `url.Parse`; `none` stands for an error, which comes with a nil URL. -/
  urlParse : String → Option URL
  /-- The function `path.Join`. -/
  pathJoin : List String → String
  /-- The method `(*URL).String`. -/
  urlString : URL → String

/-! ## The helper (`pkg/helper/issues_helper.go`) -/

/-- The constant `issueCompleted`. -/
def issueCompleted : String := "completed"

/-- The constant `issueNotCompleted`. -/
def issueNotCompleted : String := "notCompleted"

/-- The constant `issueRemoved`. -/
def issueRemoved : String := "removed"

/-- The constant `issueBrowseSuffix`. -/
def issueBrowseSuffix : String := "/browse/"

/-- The double-quote character. -/
def dquote : Char := Char.ofNat 34

/-- The single-quote character. -/
def squote : Char := Char.ofNat 39

/-- The function `unicode.IsSpace`. -/
def isSpace (c : Char) : Bool :=
  c == '\t' || c == '\n' || c == Char.ofNat 11 || c == Char.ofNat 12 || c == '\r' || c == ' ' ||
  c == Char.ofNat 0x85 || c == Char.ofNat 0xA0 || c == Char.ofNat 0x1680 ||
  (0x2000 ≤ c.toNat && c.toNat ≤ 0x200A) || c == Char.ofNat 0x2028 ||
  c == Char.ofNat 0x2029 || c == Char.ofNat 0x202F || c == Char.ofNat 0x205F ||
  c == Char.ofNat 0x3000

/-- The function `strings.TrimSpace`. -/
def TrimSpace (s : String) : String :=
  String.mk ((s.toList.dropWhile isSpace).reverse.dropWhile isSpace).reverse

/-- The call `strings.ReplaceAll(s, a, b)` for one-character `a` and `b`. -/
def ReplaceAll (s : String) (a b : Char) : String :=
  String.mk (s.toList.map (fun c => if c = a then b else c))

/-- The call `fmt.Sprintf("=HYPERLINK(\"%s\",\"%s\")", target, label)`. -/
def hyperlink (target label : String) : String :=
  "=HYPERLINK(" ++ String.singleton dquote ++ target ++ String.singleton dquote ++ "," ++
    String.singleton dquote ++ label ++ String.singleton dquote ++ ")"

/-- The method `generateJiraLink`: a spreadsheet hyperlink for an issue. The error of
`url.Parse` is dropped, so with an endpoint that does not parse the nil URL is
written to and the program panics: that is the result `none`. -/
def generateJiraLink (env : Env) (issueID issueTitle : String) : Option String :=
  match env.urlParse env.EndpointPrefix with
  | none => none
  | some u =>
    some (hyperlink
      (env.urlString { u with Path := env.pathJoin [u.Path, issueBrowseSuffix, issueID] })
      (TrimSpace (ReplaceAll issueTitle dquote squote)))

/-- One or more characters of a class, greedy. -/
def plus (p : Char → Bool) : Regexp := .cat (.char p) (.star p)

/-- The variable `sprintRegex`:
`(?:IMR|MNZ|STR)\s+Sprint\s+(\d{4})-W?(\d{2})-W?(\d{2})`. -/
def sprintRegex : Regexp :=
  Regexp.seq [
    .alt (str "IMR") (.alt (str "MNZ") (str "STR")),
    plus perlSpace, str "Sprint", plus perlSpace,
    .group 1 (Regexp.seq [.char perlDigit, .char perlDigit, .char perlDigit, .char perlDigit]),
    lit '-', .opt (lit 'W'),
    .group 2 (Regexp.seq [.char perlDigit, .char perlDigit]),
    lit '-', .opt (lit 'W'),
    .group 3 (Regexp.seq [.char perlDigit, .char perlDigit])]

/-- The function `SimplifySprintName`: the sprint name as YYYY-WNN-NN. -/
def SimplifySprintName (name : String) : String :=
  if !sprintRegex.MatchString name then name
  else
    match sprintRegex.FindStringSubmatch name with
    | [_, year, first, last] => year ++ "-W" ++ first ++ "-" ++ last
    | _ => name

/-- One entry of `regexMap`:
`(?i).*\[\s*(?:[^others])?\s*(tag).*\].*`. -/
def titlePattern (others tag : String) : Regexp :=
  Regexp.seq [
    .star anyChar, lit '[', .star perlSpace,
    .opt (.char (noneOfFold others)), .star perlSpace,
    .group 1 (strFold tag),
    .star anyChar, lit ']', .star anyChar]

/-- The variable `regexMap`: the patterns that look up the discipline in the title. -/
def regexMap : List (String × Regexp) :=
  [("Backend", titlePattern "Web|AutoQA|Android|iOS" "Backend"),
   ("Web", titlePattern "Backend|AutoQA|Android|iOS" "Web"),
   ("AutoQA", titlePattern "Backend|Web|Android|iOS" "AutoQA"),
   ("Android", titlePattern "Backend|Web|AutoQA|iOS" "Android"),
   ("iOS", titlePattern "Backend|Web|AutoQA|Android" "iOS")]

/-- The method `solveDicipline`: the label and the error it returns, and the state it
leaves. -/
def solveDicipline (env : Env) (issue : Issue) (w : World) : (String × Option String) × World :=
  match w.disciplines.lookup issue.Key with
  | some d =>
    ((d, none),
      { w with stdout := w.stdout ++ ["discipline " ++ d ++ " found in cache for " ++ issue.Key ++ "\n"] })
  | none =>
    let w1 : World := { w with ranged := w.ranged + 1 }
    match (env.rangeOrder w.ranged).find? (fun e => e.2.MatchString issue.Summary) with
    | some e => ((e.1, none), { w1 with disciplines := mapSet issue.Key e.1 w1.disciplines })
    | none =>
      let w2 : World := { w1 with fetched := w1.fetched ++ [issue.Key] }
      match env.Get w.fetched issue.Key with
      | .error err => (("Other", some err), w2)
      | .ok issueWithDetails =>
        if issueWithDetails.Fields.Discipline.Value ≠ "" then
          ((issueWithDetails.Fields.Discipline.Value, none),
            { w2 with disciplines :=
                mapSet issue.Key issueWithDetails.Fields.Discipline.Value w2.disciplines })
        else
          match issueWithDetails.Fields.Components with
          | c :: _ => ((c.Name, none), { w2 with disciplines := mapSet issue.Key c.Name w2.disciplines })
          | [] => (("Other", none), w2)

/-- The method `generateRow`: the row of one issue, and the state left by the discipline
look-up; `none` when the link cannot be generated and the program panics. -/
def generateRow (env : Env) (j : Issue) (added : Bool) (sprintName : String)
    (issueCategory : String) (w : World) : Option (MySheetRow × World) :=
  match generateJiraLink env j.Key j.Summary with
  | none => none
  | some link =>
    let row0 : MySheetRow :=
      { Sprint := SimplifySprintName sprintName
        Dicipline := ""
        TicketNumber := j.Key
        Title := j.Summary
        Link := link
        Commited := 0, Dropped := 0, Added := 0, Adjusted := 0, CarriedOver := 0, Completed := 0 }
    let row1 : MySheetRow :=
      if added then { row0 with Added := j.EstimateStatistic.StatFieldValue.Value.toInt }
      else { row0 with Commited := j.EstimateStatistic.StatFieldValue.Value.toInt }
    let row2 : MySheetRow :=
      if issueCategory = issueCompleted then
        { row1 with Completed := j.EstimateStatistic.StatFieldValue.Value.toInt }
      else row1
    let row3 : MySheetRow :=
      if issueCategory = issueNotCompleted then
        { row2 with CarriedOver := j.CurrentEstimateStatistic.StatFieldValue.Value.toInt }
      else row2
    let row4 : MySheetRow :=
      if issueCategory = issueRemoved then
        { row3 with Dropped := j.EstimateStatistic.StatFieldValue.Value.toInt }
      else row3
    let row5 : MySheetRow :=
      { row4 with Adjusted := wrapInt (wrapInt (row4.Commited - row4.Dropped) + row4.Added) }
    let solved := solveDicipline env j w
    some ({ row5 with Dicipline := solved.1.1 }, solved.2)

/-- One of the three loops of `ProcessReport`: the rows of a bucket, in order. -/
def fillup (env : Env) (addedKeys : IssuesAdded) (sprintName issueCategory : String) :
    List Issue → World → Option (MySheetRowArray × World)
  | [], w => some ([], w)
  | j :: js, w =>
    match generateRow env j (addedKeys.lookup j.Key).isSome sprintName issueCategory w with
    | none => none
    | some first =>
      match fillup env addedKeys sprintName issueCategory js first.2 with
      | none => none
      | some others => some (first.1 :: others.1, others.2)

/-- The method `ProcessReport`: the rows and the error it returns, and the state it
leaves; `none` when the program panics. -/
def ProcessReport (env : Env) (report : ReportResponse) (w : World) :
    Option ((MySheetRowArray × Option String) × World) :=
  match fillup env report.Contents.IssueKeysAddedDuringSprint report.Sprint.Name
      issueCompleted report.Contents.CompletedIssues w with
  | none => none
  | some completed =>
    match fillup env report.Contents.IssueKeysAddedDuringSprint report.Sprint.Name
        issueNotCompleted report.Contents.IssuesNotCompletedInCurrentSprint completed.2 with
    | none => none
    | some notCompleted =>
      match fillup env report.Contents.IssueKeysAddedDuringSprint report.Sprint.Name
          issueRemoved report.Contents.PuntedIssues notCompleted.2 with
      | none => none
      | some removed => some ((completed.1 ++ notCompleted.1 ++ removed.1, none), removed.2)

/-! ## Sample inputs -/


/-- An issue of a sprint report with the given key, title and estimates. -/
def issueOf (key title : String) (estimate current : Float64) : Issue :=
  { Key := key
    Summary := title
    CurrentEstimateStatistic := { StatFieldID := "field", StatFieldValue := { Value := current, Text := "" } }
    EstimateStatistic := { StatFieldID := "field", StatFieldValue := { Value := estimate, Text := "" } } }

/-- The details of an issue with the given discipline field and component names. -/
def detailsOf (key discipline : String) (components : List String) : SimpleIssue :=
  { ID := "1"
    Key := key
    Fields :=
      { Components := components.map (fun n => { Name := n, Description := "" })
        Discipline := { ID := "1", Value := discipline } } }

/-- An environment whose tracker fails every request. Its URL functions are cut down to
endpoints made of a scheme and a host, and to path elements that need no cleaning. -/
def downEnv : Env :=
  { EndpointPrefix := "https://jira.example.com"
    Get := fun _ _ => .error "connection refused"
    rangeOrder := fun _ => regexMap
    urlParse := fun endpoint =>
      match endpoint.toList with
      | 'h' :: 't' :: 't' :: 'p' :: 's' :: ':' :: '/' :: '/' :: host =>
        some { Scheme := "https", Host := String.mk host, Path := "" }
      | _ => none
    pathJoin := String.join
    urlString := fun u => u.Scheme ++ "://" ++ u.Host ++ u.Path }

/-- The state of a process that has just started. -/
def freshWorld : World := { disciplines := [], fetched := [], ranged := 0, stdout := [] }

/-- A report whose only issue is completed, was added during the sprint and has
estimate 0. -/
def zeroEstimateReport : ReportResponse :=
  { Contents :=
      { CompletedIssues := [issueOf "PROJ-1" "[Backend] Fix bug" (.finite 0 0) (.finite 0 0)]
        IssuesNotCompletedInCurrentSprint := []
        PuntedIssues := []
        IssueKeysAddedDuringSprint := [("PROJ-1", true)] }
    Sprint := { Name := "IMR Sprint 2021-W05-06" } }

/-- A report with one issue in each bucket. -/
def sampleReport : ReportResponse :=
  { Contents :=
      { CompletedIssues := [issueOf "PROJ-1" "[Backend] Fix bug" (.finite 5 0) (.finite 5 0)]
        IssuesNotCompletedInCurrentSprint := [issueOf "PROJ-2" "Tidy up" (.finite 3 0) (.finite 1 1)]
        PuntedIssues := [issueOf "PROJ-3" "[ios] Crash" (.finite 1 1) (.finite 1 1)]
        IssueKeysAddedDuringSprint := [("PROJ-2", false)] }
    Sprint := { Name := "IMR Sprint 2021-W05-06" } }

/-- An environment whose tracker fails the first request and afterwards answers with
the discipline field "QA". -/
def flakyEnv : Env :=
  { downEnv with
    Get := fun earlier key =>
      if earlier = [] then .error "timeout" else .ok (detailsOf key "QA" []) }

/-- An environment whose tracker answers every request with the given discipline field
and component names. -/
def answeringEnv (discipline : String) (components : List String) : Env :=
  { downEnv with Get := fun _ key => .ok (detailsOf key discipline components) }

/-- An issue whose title carries no discipline tag. -/
def untaggedIssue : Issue := issueOf "PROJ-2" "Tidy up" (.finite 3 0) (.finite 3 0)

/-- An issue whose estimates are the integer 2^63, one more than the largest `int`. -/
def hugeEstimateIssue : Issue := issueOf "PROJ-9" "[Web] Import" (.finite 1 63) (.finite 1 63)

/-- The pattern `r` can match at the start of `s` and leave `rest`. -/
def Regexp.Reaches (r : Regexp) (s rest : List Char) : Prop :=
  ∀ caps, ∃ caps', (caps', rest) ∈ r.run caps s

/-- The title `[tag]` wrapped in text: `before`, an opening bracket, the characters
`variant`, a closing bracket, `after`. -/
def taggedTitle (before variant after : List Char) : String :=
  String.mk (before ++ '[' :: (variant ++ ']' :: after))

/-! ## Rows as spreadsheet values (`pkg/googlesheets/sheet_row.go`) -/

/-- A Go `interface{}` as a row holds it: nil, a string or an int. -/
inductive GoValue where
  | nil
  | string (s : String)
  | int (n : Int)
  deriving DecidableEq, Repr

/-- The Go type `googlesheets.GoogleSheetValues`, a `[][]interface{}`. -/
abbrev GoogleSheetValues := List (List GoValue)

/-- The call `reflect.ValueOf(s).NumField()` on a `MySheetRow`. -/
def MySheetRow.NumField : Nat := 11

/-- The call `reflect.ValueOf(s).Field(j).Interface()`: the fields in the order of their
declaration. The loop of `Convert` stays below `NumField`. -/
def MySheetRow.Field (s : MySheetRow) : Nat → GoValue
  | 0 => .string s.Sprint
  | 1 => .string s.Dicipline
  | 2 => .string s.TicketNumber
  | 3 => .string s.Title
  | 4 => .string s.Link
  | 5 => .int s.Commited
  | 6 => .int s.Dropped
  | 7 => .int s.Added
  | 8 => .int s.Adjusted
  | 9 => .int s.CarriedOver
  | 10 => .int s.Completed
  | _ => .nil

/-- The call `reflect.ValueOf(s).Field(j).CanInterface()`: true for an exported field, and
every field of `MySheetRow` is exported. -/
def MySheetRow.CanInterface (_ : Nat) : Bool := true

/-- The method `MySheetRowArray.Convert`: each row as a list of values. -/
def MySheetRowArray.Convert (m : MySheetRowArray) : GoogleSheetValues :=
  m.map (fun s =>
    (List.range MySheetRow.NumField).map
      (fun j => if MySheetRow.CanInterface j then s.Field j else GoValue.nil))

/-! ## Drivers for the statements -/

/-- A sequence of calls of `solveDicipline`, one for each issue of the list in turn: the
state it leaves. -/
def solveAll (env : Env) : List Issue → World → World
  | [], w => w
  | j :: js, w => solveAll env js (solveDicipline env j w).2

/-- The sprint name `<team> Sprint <year>-W?<first>-W?<last>`; each of the two W's is
written when its flag is set. -/
def sprintNameOf (team : String) (year first last : List Char) (w1 w2 : Bool) : String :=
  String.mk (team.toList ++ (" Sprint ".toList ++ (year ++ '-' ::
    ((if w1 then ['W'] else []) ++ (first ++ '-' :: ((if w2 then ['W'] else []) ++ last))))))

/-! ## Integers -/

theorem toInt_bounds (f : Float64) : minInt ≤ f.toInt ∧ f.toInt ≤ maxInt := by
  cases f with
  | finite mant exp =>
    simp only [Float64.toInt]
    split
    · assumption
    · simp [minInt, maxInt]
  | nan => simp [Float64.toInt, minInt, maxInt]
  | inf b => simp [Float64.toInt, minInt, maxInt]

theorem wrapInt_of_bounds (z : Int) (h : minInt ≤ z ∧ z ≤ maxInt) : wrapInt z = z := by
  simp only [minInt, maxInt] at h
  simp only [wrapInt]
  omega

theorem wrapInt_cancel (v : Int) : wrapInt (wrapInt (-v) + v) = 0 := by
  simp only [wrapInt]
  omega

theorem toInt_of_isInteger (f : Float64) (e : Int) (h : f.IsInteger e)
    (hr : minInt ≤ e ∧ e ≤ maxInt) : f.toInt = e := by
  cases f with
  | finite mant exp =>
    have ht : Float64.truncate mant exp = e := by
      simp only [Float64.IsInteger] at h
      simp only [Float64.truncate]
      split
      · next hx => simpa [hx] using h
      · next hx =>
        simp only [hx, if_false] at h
        rw [h]
        apply Int.mul_tdiv_cancel
        exact_mod_cast (Nat.pos_pow_of_pos _ (by decide)).ne'
    simp only [Float64.toInt, ht]
    simp [hr]
  | nan => simp [Float64.IsInteger] at h
  | inf b => simp [Float64.IsInteger] at h

/-! ## The fields of a generated row -/

/-- With an endpoint that parses, `generateRow` returns this row and the state left by
`solveDicipline`. -/
theorem generateRow_eq (env : Env) (j : Issue) (added : Bool) (sprintName cat : String)
    (w : World) (u : URL) (hurl : env.urlParse env.EndpointPrefix = some u) :
    generateRow env j added sprintName cat w =
      some ({ Sprint := SimplifySprintName sprintName
              Dicipline := (solveDicipline env j w).1.1
              TicketNumber := j.Key
              Title := j.Summary
              Link := hyperlink
                (env.urlString { u with Path := env.pathJoin [u.Path, issueBrowseSuffix, j.Key] })
                (TrimSpace (ReplaceAll j.Summary dquote squote))
              Commited := if added then 0 else j.EstimateStatistic.StatFieldValue.Value.toInt
              Dropped :=
                if cat = issueRemoved then j.EstimateStatistic.StatFieldValue.Value.toInt else 0
              Added := if added then j.EstimateStatistic.StatFieldValue.Value.toInt else 0
              Adjusted :=
                wrapInt (wrapInt
                  ((if added then 0 else j.EstimateStatistic.StatFieldValue.Value.toInt) -
                    (if cat = issueRemoved then j.EstimateStatistic.StatFieldValue.Value.toInt
                      else 0)) +
                  (if added then j.EstimateStatistic.StatFieldValue.Value.toInt else 0))
              CarriedOver :=
                if cat = issueNotCompleted then
                  j.CurrentEstimateStatistic.StatFieldValue.Value.toInt
                else 0
              Completed :=
                if cat = issueCompleted then j.EstimateStatistic.StatFieldValue.Value.toInt
                else 0 },
            (solveDicipline env j w).2) := by
  have d12 : issueCompleted ≠ issueNotCompleted := by decide
  have d13 : issueCompleted ≠ issueRemoved := by decide
  have d23 : issueNotCompleted ≠ issueRemoved := by decide
  simp only [generateRow, generateJiraLink, hurl]
  by_cases h1 : cat = issueCompleted
  · subst h1
    cases added <;> simp [d12, d13]
  · by_cases h2 : cat = issueNotCompleted
    · subst h2
      cases added <;> simp [d12.symm, d23]
    · by_cases h3 : cat = issueRemoved
      · subst h3
        cases added <;> simp [d13.symm, d23.symm]
      · cases added <;> simp [h1, h2, h3]

/-- With an endpoint that does not parse, `generateRow` panics. -/
theorem generateRow_unparsed_endpoint (env : Env) (j : Issue) (added : Bool)
    (sprintName cat : String) (w : World) (hurl : env.urlParse env.EndpointPrefix = none) :
    generateRow env j added sprintName cat w = none := by
  simp only [generateRow, generateJiraLink, hurl]

/-- The numbers of a generated row, without wrap-around. -/
theorem adjusted_identity (added : Bool) (cat : String) (f : Float64) :
    wrapInt (wrapInt ((if added then 0 else f.toInt) - (if cat = issueRemoved then f.toInt else 0)) +
        (if added then f.toInt else 0)) =
      (if added then 0 else f.toInt) - (if cat = issueRemoved then f.toInt else 0) +
        (if added then f.toInt else 0) := by
  have hw := wrapInt_of_bounds _ (toInt_bounds f)
  have hc := wrapInt_cancel f.toInt
  have h0 : wrapInt 0 = 0 := by simp [wrapInt]
  cases added <;> by_cases h3 : cat = issueRemoved <;> simp [h3, hw, hc, h0]

/-! ## The rows of a report -/

theorem fillup_rows (env : Env) (addedKeys : IssuesAdded) (sprintName cat : String) (u : URL)
    (hurl : env.urlParse env.EndpointPrefix = some u) (P : Issue → MySheetRow → Prop)
    (hP : ∀ j w row v,
      generateRow env j (addedKeys.lookup j.Key).isSome sprintName cat w = some (row, v) → P j row)
    (js : List Issue) (w : World) :
    ∃ rows v, fillup env addedKeys sprintName cat js w = some (rows, v) ∧
      List.Forall₂ P js rows := by
  induction js generalizing w with
  | nil => exact ⟨[], w, rfl, List.Forall₂.nil⟩
  | cons j js ih =>
    have hrow := generateRow_eq env j (addedKeys.lookup j.Key).isSome sprintName cat w u hurl
    obtain ⟨rows, v, hrows, hall⟩ := ih (solveDicipline env j w).2
    refine ⟨_ :: rows, v, ?_, List.Forall₂.cons (hP j w _ _ hrow) hall⟩
    simp only [fillup, hrow, hrows]

theorem ProcessReport_rows (env : Env) (report : ReportResponse) (w : World) (u : URL)
    (hurl : env.urlParse env.EndpointPrefix = some u) (P : Issue → MySheetRow → Prop)
    (hP : ∀ j cat w row v,
      generateRow env j (report.Contents.IssueKeysAddedDuringSprint.lookup j.Key).isSome
        report.Sprint.Name cat w = some (row, v) → P j row) :
    ∃ rows v, ProcessReport env report w = some ((rows, none), v) ∧
      List.Forall₂ P
        (report.Contents.CompletedIssues ++ report.Contents.IssuesNotCompletedInCurrentSprint ++
          report.Contents.PuntedIssues) rows := by
  obtain ⟨r1, v1, h1, a1⟩ := fillup_rows env report.Contents.IssueKeysAddedDuringSprint
    report.Sprint.Name issueCompleted u hurl P (fun j w row v => hP j _ w row v)
    report.Contents.CompletedIssues w
  obtain ⟨r2, v2, h2, a2⟩ := fillup_rows env report.Contents.IssueKeysAddedDuringSprint
    report.Sprint.Name issueNotCompleted u hurl P (fun j w row v => hP j _ w row v)
    report.Contents.IssuesNotCompletedInCurrentSprint v1
  obtain ⟨r3, v3, h3, a3⟩ := fillup_rows env report.Contents.IssueKeysAddedDuringSprint
    report.Sprint.Name issueRemoved u hurl P (fun j w row v => hP j _ w row v)
    report.Contents.PuntedIssues v2
  refine ⟨r1 ++ r2 ++ r3, v3, ?_, List.rel_append (List.rel_append a1 a2) a3⟩
  simp only [ProcessReport, h1, h2, h3]

theorem forall₂_map_eq {α β γ : Type} (f : α → γ) (g : β → γ) (xs : List α) (ys : List β)
    (h : List.Forall₂ (fun x y => g y = f x) xs ys) : ys.map g = xs.map f := by
  induction h with
  | nil => rfl
  | cons hxy _ ih => simp [hxy, ih]

theorem forall₂_mem_right {α β : Type} (P : α → β → Prop) (xs : List α) (ys : List β)
    (h : List.Forall₂ P xs ys) (y : β) (hy : y ∈ ys) : ∃ x ∈ xs, P x y := by
  induction h with
  | nil => simp at hy
  | cons hxy _ ih =>
    rcases List.mem_cons.mp hy with rfl | hy
    · exact ⟨_, List.mem_cons_self _ _, hxy⟩
    · obtain ⟨x, hx, hp⟩ := ih hy
      exact ⟨x, List.mem_cons_of_mem _ hx, hp⟩

theorem forall₂_mem_left {α β : Type} (P : α → β → Prop) (xs : List α) (ys : List β)
    (h : List.Forall₂ P xs ys) (x : α) (hx : x ∈ xs) : ∃ y ∈ ys, P x y := by
  induction h with
  | nil => simp at hx
  | cons hxy _ ih =>
    rcases List.mem_cons.mp hx with rfl | hx
    · exact ⟨_, List.mem_cons_self _ _, hxy⟩
    · obtain ⟨y, hy, hp⟩ := ih hx
      exact ⟨y, List.mem_cons_of_mem _ hy, hp⟩

theorem forall₂_imp_of_mem {α β : Type} (R S : α → β → Prop) (xs : List α) (ys : List β)
    (h : List.Forall₂ R xs ys) (himp : ∀ x y, y ∈ ys → R x y → S x y) :
    List.Forall₂ S xs ys := by
  induction h with
  | nil => exact List.Forall₂.nil
  | cons hxy _ ih =>
    exact List.Forall₂.cons (himp _ _ (List.mem_cons_self _ _) hxy)
      (ih (fun x y hy => himp x y (List.mem_cons_of_mem _ hy)))

/-! ## The discipline resolver -/

theorem lookup_mapSet_self (k v : String) (m : List (String × String)) :
    (mapSet k v m).lookup k = some v := by
  simp [mapSet, List.lookup]

theorem find_none_of_no_pattern (order : List (String × Regexp)) (title : String)
    (hperm : order.Perm regexMap)
    (hno : ∀ e ∈ regexMap, e.2.MatchString title = false) :
    order.find? (fun e => e.2.MatchString title) = none := by
  rw [List.find?_eq_none]
  intro e he
  simp [hno e (hperm.subset he)]

theorem solveDicipline_hit (env : Env) (issue : Issue) (w : World) (d : String)
    (h : w.disciplines.lookup issue.Key = some d) :
    solveDicipline env issue w =
      ((d, none),
        { w with stdout :=
            w.stdout ++ ["discipline " ++ d ++ " found in cache for " ++ issue.Key ++ "\n"] }) := by
  simp [solveDicipline, h]

theorem solveDicipline_fetch_error (env : Env) (issue : Issue) (w : World) (err : String)
    (hmiss : w.disciplines.lookup issue.Key = none)
    (hfind : (env.rangeOrder w.ranged).find? (fun e => e.2.MatchString issue.Summary) = none)
    (hget : env.Get w.fetched issue.Key = .error err) :
    solveDicipline env issue w =
      (("Other", some err),
        { w with ranged := w.ranged + 1, fetched := w.fetched ++ [issue.Key] }) := by
  simp [solveDicipline, hmiss, hfind, hget]

theorem solveDicipline_fetch_ok (env : Env) (issue : Issue) (w : World) (d : SimpleIssue)
    (hmiss : w.disciplines.lookup issue.Key = none)
    (hfind : (env.rangeOrder w.ranged).find? (fun e => e.2.MatchString issue.Summary) = none)
    (hget : env.Get w.fetched issue.Key = .ok d) :
    solveDicipline env issue w =
      if d.Fields.Discipline.Value ≠ "" then
        ((d.Fields.Discipline.Value, none),
          { w with
            ranged := w.ranged + 1, fetched := w.fetched ++ [issue.Key],
            disciplines := mapSet issue.Key d.Fields.Discipline.Value w.disciplines })
      else
        match d.Fields.Components with
        | c :: _ =>
          ((c.Name, none),
            { w with
              ranged := w.ranged + 1, fetched := w.fetched ++ [issue.Key],
              disciplines := mapSet issue.Key c.Name w.disciplines })
        | [] =>
          (("Other", none),
            { w with ranged := w.ranged + 1, fetched := w.fetched ++ [issue.Key] }) := by
  simp only [solveDicipline, hmiss, hfind, hget]

theorem solveDicipline_pattern (env : Env) (issue : Issue) (w : World) (e : String × Regexp)
    (hmiss : w.disciplines.lookup issue.Key = none)
    (hfind : (env.rangeOrder w.ranged).find? (fun e => e.2.MatchString issue.Summary) = some e) :
    solveDicipline env issue w =
      ((e.1, none),
        { w with ranged := w.ranged + 1, disciplines := mapSet issue.Key e.1 w.disciplines }) := by
  simp [solveDicipline, hmiss, hfind]

/-- After a call the key is cached only under the label the call returned, and the call
made at most one request. -/
theorem solveDicipline_cached_label (env : Env) (issue : Issue) (w : World) :
    (∀ d, (solveDicipline env issue w).2.disciplines.lookup issue.Key = some d →
        d = (solveDicipline env issue w).1.1) ∧
      (solveDicipline env issue w).2.fetched.length ≤ w.fetched.length + 1 := by
  cases hl : w.disciplines.lookup issue.Key with
  | some d0 =>
    rw [solveDicipline_hit env issue w d0 hl]
    simp [hl]
  | none =>
    cases hf : (env.rangeOrder w.ranged).find? (fun e => e.2.MatchString issue.Summary) with
    | some e =>
      rw [solveDicipline_pattern env issue w e hl hf]
      simp [lookup_mapSet_self]
    | none =>
      cases hg : env.Get w.fetched issue.Key with
      | error err =>
        rw [solveDicipline_fetch_error env issue w err hl hf hg]
        simp [hl]
      | ok d =>
        rw [solveDicipline_fetch_ok env issue w d hl hf hg]
        split_ifs
        · simp [lookup_mapSet_self]
        · cases d.Fields.Components <;> simp [lookup_mapSet_self, hl]

theorem solveDicipline_fetches (env : Env) (issue : Issue) (w : World)
    (hmiss : w.disciplines.lookup issue.Key = none)
    (hfind : (env.rangeOrder w.ranged).find? (fun e => e.2.MatchString issue.Summary) = none) :
    (solveDicipline env issue w).2.fetched = w.fetched ++ [issue.Key] := by
  cases hg : env.Get w.fetched issue.Key with
  | error err => rw [solveDicipline_fetch_error env issue w err hmiss hfind hg]
  | ok d =>
    rw [solveDicipline_fetch_ok env issue w d hmiss hfind hg]
    split_ifs
    · rfl
    · cases d.Fields.Components <;> rfl

/-! ## Matching -/

theorem search_isSome_iff (re : Regexp) (s : List Char) :
    (re.search s).isSome = true ↔ ∃ t, t <:+ s ∧ re.run [] t ≠ [] := by
  induction s with
  | nil =>
    simp only [Regexp.search, List.suffix_nil]
    cases h : re.run [] [] <;> simp [h]
  | cons c cs ih =>
    simp only [Regexp.search]
    cases h : re.run [] (c :: cs) with
    | nil =>
      simp only [ih, List.suffix_cons_iff]
      constructor
      · rintro ⟨t, ht, hr⟩
        exact ⟨t, Or.inr ht, hr⟩
      · rintro ⟨t, ht | ht, hr⟩
        · subst ht
          exact absurd h hr
        · exact ⟨t, ht, hr⟩
    | cons m ms =>
      simp only [Option.isSome_some, true_iff]
      exact ⟨c :: cs, List.suffix_refl _, by simp [h]⟩

theorem starRun_self (p : Char → Bool) (s : List Char) : s ∈ starRun p s := by
  cases s with
  | nil => simp [starRun]
  | cons c cs =>
    simp only [starRun]
    split <;> simp

theorem starRun_suffix (p : Char → Bool) (s rest : List Char) (h : rest ∈ starRun p s) :
    rest <:+ s := by
  induction s with
  | nil =>
    simp only [starRun, List.mem_singleton] at h
    subst h
    exact List.suffix_refl _
  | cons c cs ih =>
    simp only [starRun] at h
    split at h
    · rcases List.mem_append.mp h with h | h
      · exact (ih h).trans (List.suffix_cons _ _)
      · simp only [List.mem_singleton] at h
        subst h
        exact List.suffix_refl _
    · simp only [List.mem_singleton] at h
      subst h
      exact List.suffix_refl _

theorem reaches_empty (s : List Char) : Regexp.empty.Reaches s s := by
  intro caps
  exact ⟨caps, by simp [Regexp.run]⟩

theorem reaches_char (p : Char → Bool) (c : Char) (cs : List Char) (h : p c = true) :
    (Regexp.char p).Reaches (c :: cs) cs := by
  intro caps
  exact ⟨caps, by simp [Regexp.run, h]⟩

theorem reaches_star_zero (p : Char → Bool) (s : List Char) : (Regexp.star p).Reaches s s := by
  intro caps
  exact ⟨caps, by simpa [Regexp.run] using starRun_self p s⟩

theorem reaches_opt_skip (r : Regexp) (s : List Char) : (Regexp.opt r).Reaches s s := by
  intro caps
  exact ⟨caps, by simp [Regexp.run]⟩

theorem reaches_cat (r t : Regexp) (s mid rest : List Char) (h1 : r.Reaches s mid)
    (h2 : t.Reaches mid rest) : (Regexp.cat r t).Reaches s rest := by
  intro caps
  obtain ⟨c1, hc1⟩ := h1 caps
  obtain ⟨c2, hc2⟩ := h2 c1
  exact ⟨c2, by
    simp only [Regexp.run, List.mem_flatMap]
    exact ⟨(c1, mid), hc1, hc2⟩⟩

theorem reaches_group (n : Nat) (r : Regexp) (s rest : List Char) (h : r.Reaches s rest) :
    (Regexp.group n r).Reaches s rest := by
  intro caps
  obtain ⟨c1, hc1⟩ := h caps
  exact ⟨(n, s.take (s.length - rest.length)) :: c1, by
    simp only [Regexp.run, List.mem_map]
    exact ⟨(c1, rest), hc1, rfl⟩⟩

theorem reaches_litFold (tag variant rest : List Char)
    (h : List.Forall₂ (fun v t => foldKey v = foldKey t) variant tag) :
    (Regexp.seq (tag.map litFold)).Reaches (variant ++ rest) rest := by
  induction h with
  | nil => exact reaches_empty rest
  | cons hvt _ ih =>
    exact reaches_cat _ _ _ _ _ (reaches_char _ _ _ (by simp [hvt])) ih

theorem matchString_of_reaches (re : Regexp) (s : String) (t rest : List Char)
    (ht : t <:+ s.toList) (h : re.Reaches t rest) : re.MatchString s = true := by
  simp only [Regexp.MatchString, search_isSome_iff]
  obtain ⟨c, hc⟩ := h []
  exact ⟨t, ht, List.ne_nil_of_mem hc⟩

/-- A title pattern matches a title that has the tag, in any case, right after a
bracket and right before the closing one. -/
theorem titlePattern_matches (others tag : String) (before variant after : List Char)
    (h : List.Forall₂ (fun v t => foldKey v = foldKey t) variant tag.toList) :
    (titlePattern others tag).MatchString (taggedTitle before variant after) = true := by
  apply matchString_of_reaches _ _ ('[' :: (variant ++ ']' :: after)) after
  · exact List.suffix_append before ('[' :: (variant ++ ']' :: after))
  · simp only [titlePattern, Regexp.seq]
    apply reaches_cat _ _ _ _ _ (reaches_star_zero _ _)
    apply reaches_cat _ _ _ (variant ++ ']' :: after) _ (reaches_char _ _ _ (by decide))
    apply reaches_cat _ _ _ _ _ (reaches_star_zero _ _)
    apply reaches_cat _ _ _ _ _ (reaches_opt_skip _ _)
    apply reaches_cat _ _ _ _ _ (reaches_star_zero _ _)
    apply reaches_cat _ _ _ (']' :: after) _ (reaches_group _ _ _ _ (reaches_litFold _ _ _ h))
    apply reaches_cat _ _ _ _ _ (reaches_star_zero _ _)
    apply reaches_cat _ _ _ after _ (reaches_char _ _ _ (by decide))
    apply reaches_cat _ _ _ _ _ (reaches_star_zero _ _)
    exact reaches_empty _

/-- The one opening bracket of a text: what follows any opening bracket of the text is
what follows that one. -/
theorem after_only_bracket (before x m : List Char) (hb : '[' ∉ before) (hx : '[' ∉ x)
    (h : ('[' :: m) <:+ (before ++ '[' :: x)) : m = x := by
  induction before with
  | nil =>
    rcases List.suffix_cons_iff.mp h with h | h
    · simpa using h
    · exact absurd (h.subset (List.mem_cons_self _ _)) hx
  | cons b bs ih =>
    rcases List.suffix_cons_iff.mp h with h | h
    · simp only [List.cons_append, List.cons.injEq] at h
      exact absurd (h.1 ▸ List.mem_cons_self _ _) hb
    · exact ih (fun hm => hb (List.mem_cons_of_mem _ hm)) h

/-- A match of `.*\[r` reads an opening bracket of the text and matches `r` after it. -/
theorem run_star_bracket (p : Char → Bool) (r : Regexp) (caps : Captures) (t : List Char)
    (h : (Regexp.cat (.star p) (.cat (lit '[') r)).run caps t ≠ []) :
    ∃ m, ('[' :: m) <:+ t ∧ r.run caps m ≠ [] := by
  obtain ⟨x, hx⟩ := List.exists_mem_of_ne_nil _ h
  simp only [Regexp.run, lit, List.mem_flatMap, List.mem_map] at hx
  obtain ⟨m1, ⟨rest, hrest, rfl⟩, m2, hm2, hx⟩ := hx
  cases rest with
  | nil => simp at hm2
  | cons c cs =>
    simp only at hm2
    split at hm2
    · next hc =>
      simp only [List.mem_singleton] at hm2
      subst hm2
      have hc' : c = '[' := by simpa using hc
      subst hc'
      exact ⟨cs, starRun_suffix _ _ _ hrest, List.ne_nil_of_mem hx⟩
    · simp at hm2

/-- Either case of a letter of a tag folds to the letter and is not a bracket. -/
theorem tag_letter (v t : Char) (ht : t ∈ "BackendWebAutoQAAndroidiOS".toList)
    (h : v = t.toLower ∨ v = t.toUpper) : foldKey v = foldKey t ∧ v ≠ '[' := by
  simp only [String.toList, List.mem_cons, List.mem_singleton, List.not_mem_nil, or_false] at ht
  rcases ht with rfl | rfl | rfl | rfl | rfl | rfl | rfl | rfl | rfl | rfl | rfl | rfl | rfl |
    rfl | rfl | rfl | rfl | rfl | rfl | rfl | rfl | rfl | rfl | rfl | rfl | rfl <;>
  rcases h with rfl | rfl <;> decide

/-- A title pattern matches no title whose only opening bracket is followed by text that
the pattern, from behind its bracket on, does not match. -/
theorem titlePattern_no_match (others tag : String) (before x : List Char)
    (hb : '[' ∉ before) (hx : '[' ∉ x)
    (htail : (Regexp.seq [.star perlSpace, .opt (.char (noneOfFold others)), .star perlSpace,
      .group 1 (strFold tag), .star anyChar, lit ']', .star anyChar]).run [] x = []) :
    (titlePattern others tag).MatchString (String.mk (before ++ '[' :: x)) = false := by
  rw [Bool.eq_false_iff]
  intro hm
  simp only [Regexp.MatchString, search_isSome_iff] at hm
  obtain ⟨t, ht, hr⟩ := hm
  obtain ⟨m, hm, hrun⟩ := run_star_bracket anyChar _ [] t hr
  have hmx := after_only_bracket before x m hb hx (hm.trans ht)
  subst hmx
  exact hrun htail

/-- Among the patterns of `regexMap`, a title with one opening bracket, followed by a tag
in any case and the closing bracket, is matched by the pattern of that tag alone. -/
theorem only_the_tag_matches (tag : String) (before variant after : List Char)
    (htag : tag ∈ ["Backend", "Web", "AutoQA", "Android", "iOS"])
    (hcase : List.Forall₂ (fun v t => v = t.toLower ∨ v = t.toUpper) variant tag.toList)
    (hbefore : '[' ∉ before) (hafter : '[' ∉ after) :
    ∀ e ∈ regexMap, (e.2.MatchString (taggedTitle before variant after) = true ↔ e.1 = tag) := by
  have hsub : ∀ t ∈ tag.toList, t ∈ "BackendWebAutoQAAndroidiOS".toList := by
    simp only [List.mem_cons, List.mem_singleton, List.not_mem_nil, or_false] at htag
    rcases htag with rfl | rfl | rfl | rfl | rfl <;> decide
  have hfold : List.Forall₂ (fun v t => foldKey v = foldKey t) variant tag.toList :=
    forall₂_imp_of_mem _ _ _ _ hcase (fun v t ht h => (tag_letter v t (hsub t ht) h).1)
  have hx : '[' ∉ variant ++ ']' :: after := by
    intro hmem
    rcases List.mem_append.mp hmem with hv | ha
    · obtain ⟨t, ht, h⟩ := forall₂_mem_left _ _ _ hcase _ hv
      exact (tag_letter _ t (hsub t ht) h).2 rfl
    · rcases List.mem_cons.mp ha with h | h
      · exact absurd h (by decide)
      · exact hafter h
  have hyes : ∀ others, (titlePattern others tag).MatchString
      (taggedTitle before variant after) = true :=
    fun others => titlePattern_matches others tag before variant after hfold
  have hno : ∀ others other,
      (Regexp.seq [.star perlSpace, .opt (.char (noneOfFold others)), .star perlSpace,
        .group 1 (strFold other), .star anyChar, lit ']', .star anyChar]).run []
        (variant ++ ']' :: after) = [] →
      (titlePattern others other).MatchString (taggedTitle before variant after) = false :=
    fun others other h => titlePattern_no_match others other before _ hbefore hx h
  simp only [List.mem_cons, List.mem_singleton, List.not_mem_nil, or_false] at htag
  intro e he
  simp only [regexMap, List.mem_cons, List.mem_singleton, List.not_mem_nil, or_false] at he
  rcases htag with rfl | rfl | rfl | rfl | rfl
  all_goals
    cases hcase with
    | cons h0 hcase =>
      cases hcase with
      | cons h1 hcase =>
        rcases he with rfl | rfl | rfl | rfl | rfl
        all_goals
          first
          | exact ⟨fun _ => rfl, fun _ => hyes _⟩
          | refine ⟨fun hm => ?_, fun hk => absurd hk (by decide)⟩
            rw [hno _ _ (by rcases h0 with rfl | rfl <;> rcases h1 with rfl | rfl <;> rfl)] at hm
            exact absurd hm (by decide)

theorem find_the_only_match (order : List (String × Regexp)) (title tag : String)
    (hperm : order.Perm regexMap)
    (htag : tag ∈ ["Backend", "Web", "AutoQA", "Android", "iOS"])
    (honly : ∀ e ∈ regexMap, (e.2.MatchString title = true ↔ e.1 = tag)) :
    ∃ e, order.find? (fun e => e.2.MatchString title) = some e ∧ e.1 = tag := by
  have hkeys : regexMap.map Prod.fst = ["Backend", "Web", "AutoQA", "Android", "iOS"] := rfl
  obtain ⟨e0, he0, hk0⟩ := List.mem_map.mp (hkeys ▸ htag)
  cases hf : order.find? (fun e => e.2.MatchString title) with
  | none =>
    rw [List.find?_eq_none] at hf
    exact absurd ((honly e0 he0).mpr hk0) (hf e0 (hperm.symm.subset he0))
  | some e =>
    have hp := List.find?_some hf
    exact ⟨e, rfl, (honly e (hperm.subset (List.mem_of_find?_eq_some hf))).mp hp⟩

/-! ## Claims -/

/-- C1: with an endpoint that parses, `ProcessReport` returns one row per issue of the
three buckets, and the ticket numbers of the rows are the keys of the completed
issues, then those of the not-completed issues, then those of the punted issues,
each bucket in its order. -/
theorem ProcessReport_one_row_per_issue_in_bucket_order (env : Env) (report : ReportResponse)
    (w : World) (hurl : (env.urlParse env.EndpointPrefix).isSome = true) :
    ∃ rows v, ProcessReport env report w = some ((rows, none), v) ∧
      rows.length =
        report.Contents.CompletedIssues.length +
          report.Contents.IssuesNotCompletedInCurrentSprint.length +
          report.Contents.PuntedIssues.length ∧
      rows.map (fun row => row.TicketNumber) =
        report.Contents.CompletedIssues.map (fun j => j.Key) ++
          report.Contents.IssuesNotCompletedInCurrentSprint.map (fun j => j.Key) ++
          report.Contents.PuntedIssues.map (fun j => j.Key) := by
  obtain ⟨u, hu⟩ := Option.isSome_iff_exists.mp hurl
  obtain ⟨rows, v, hrows, h⟩ := ProcessReport_rows env report w u hu
    (fun j row => row.TicketNumber = j.Key)
    (fun j cat w row v hrow => by
      rw [generateRow_eq env j _ _ cat w u hu] at hrow
      cases hrow
      rfl)
  refine ⟨rows, v, hrows, ?_, ?_⟩
  · have hl := h.length_eq
    simp only [List.length_append] at hl
    exact hl.symm
  · rw [forall₂_map_eq _ _ _ _ h]
    simp

/-- C1 at a concrete input: a report with one issue in each bucket. -/
theorem ProcessReport_one_row_per_issue_in_bucket_order_witness :
    ∃ rows v, ProcessReport downEnv sampleReport freshWorld = some ((rows, none), v) ∧
      rows.length =
        sampleReport.Contents.CompletedIssues.length +
          sampleReport.Contents.IssuesNotCompletedInCurrentSprint.length +
          sampleReport.Contents.PuntedIssues.length ∧
      rows.map (fun row => row.TicketNumber) =
        sampleReport.Contents.CompletedIssues.map (fun j => j.Key) ++
          sampleReport.Contents.IssuesNotCompletedInCurrentSprint.map (fun j => j.Key) ++
          sampleReport.Contents.PuntedIssues.map (fun j => j.Key) :=
  ProcessReport_one_row_per_issue_in_bucket_order downEnv sampleReport freshWorld (by decide)

/-- C2: with an endpoint that parses, the row produced by `generateRow`, and so every row
returned by `ProcessReport`, has Adjusted equal to Commited minus Dropped plus Added
(over the integers, without wrap-around). -/
theorem adjusted_eq_commited_sub_dropped_add_added (env : Env) (j : Issue) (added : Bool)
    (sprintName cat : String) (report : ReportResponse) (w : World)
    (hurl : (env.urlParse env.EndpointPrefix).isSome = true) :
    (∃ row v, generateRow env j added sprintName cat w = some (row, v) ∧
        row.Adjusted = row.Commited - row.Dropped + row.Added) ∧
      ∃ rows v, ProcessReport env report w = some ((rows, none), v) ∧
        List.Forall (fun row => row.Adjusted = row.Commited - row.Dropped + row.Added) rows := by
  obtain ⟨u, hu⟩ := Option.isSome_iff_exists.mp hurl
  constructor
  · exact ⟨_, _, generateRow_eq env j added sprintName cat w u hu, adjusted_identity _ _ _⟩
  · obtain ⟨rows, v, hrows, h⟩ := ProcessReport_rows env report w u hu
      (fun _ row => row.Adjusted = row.Commited - row.Dropped + row.Added)
      (fun j cat w row v hrow => by
        rw [generateRow_eq env j _ _ cat w u hu] at hrow
        cases hrow
        exact adjusted_identity _ _ _)
    refine ⟨rows, v, hrows, ?_⟩
    rw [List.forall_iff_forall_mem]
    intro row hrow
    obtain ⟨_, _, hp⟩ := forall₂_mem_right _ _ _ h row hrow
    exact hp

/-- C2 at a concrete input: a removed issue that was added during the sprint, and a report
with one issue in each bucket. -/
theorem adjusted_eq_commited_sub_dropped_add_added_witness :
    (∃ row v, generateRow downEnv untaggedIssue true "IMR Sprint 2021-W05-06" issueRemoved
        freshWorld = some (row, v) ∧
        row.Adjusted = row.Commited - row.Dropped + row.Added) ∧
      ∃ rows v, ProcessReport downEnv sampleReport freshWorld = some ((rows, none), v) ∧
        List.Forall (fun row => row.Adjusted = row.Commited - row.Dropped + row.Added) rows :=
  adjusted_eq_commited_sub_dropped_add_added downEnv untaggedIssue true
    "IMR Sprint 2021-W05-06" issueRemoved sampleReport freshWorld (by decide)

/-- C3 fails as stated: an issue that was added during the sprint and has estimate 0 gets
Added = 0, not Added > 0. -/
theorem added_issue_with_zero_estimate_has_added_zero :
    (zeroEstimateReport.Contents.IssueKeysAddedDuringSprint.lookup "PROJ-1").isSome = true ∧
      (ProcessReport downEnv zeroEstimateReport freshWorld).map
        (fun res => res.1.1.map (fun row => (row.TicketNumber, row.Added, row.Commited))) =
        some [("PROJ-1", 0, 0)] ∧
      (ProcessReport downEnv zeroEstimateReport freshWorld).map
        (fun res => res.1.1.map (fun row => decide (0 < row.Added ∧ row.Commited = 0))) =
        some [false] := by
  decide

/-- C3 as amended: with an endpoint that parses, the row of an issue whose key is in the
added-during-sprint map has Commited = 0 and Added = int(original estimate); the row
of any other issue has Added = 0 and Commited = int(original estimate). The field
that takes the estimate is therefore positive exactly when int(original estimate)
is. -/
theorem ProcessReport_added_or_commited (env : Env) (report : ReportResponse) (w : World)
    (hurl : (env.urlParse env.EndpointPrefix).isSome = true) :
    ∃ rows v, ProcessReport env report w = some ((rows, none), v) ∧
      List.Forall₂
        (fun j row =>
          row.TicketNumber = j.Key ∧
          if (report.Contents.IssueKeysAddedDuringSprint.lookup j.Key).isSome then
            row.Commited = 0 ∧ row.Added = j.EstimateStatistic.StatFieldValue.Value.toInt ∧
              (0 < row.Added ↔ 0 < j.EstimateStatistic.StatFieldValue.Value.toInt)
          else
            row.Added = 0 ∧ row.Commited = j.EstimateStatistic.StatFieldValue.Value.toInt ∧
              (0 < row.Commited ↔ 0 < j.EstimateStatistic.StatFieldValue.Value.toInt))
        (report.Contents.CompletedIssues ++ report.Contents.IssuesNotCompletedInCurrentSprint ++
          report.Contents.PuntedIssues)
        rows := by
  obtain ⟨u, hu⟩ := Option.isSome_iff_exists.mp hurl
  apply ProcessReport_rows env report w u hu
  intro j cat w row v hrow
  rw [generateRow_eq env j _ _ cat w u hu] at hrow
  cases hrow
  cases (report.Contents.IssueKeysAddedDuringSprint.lookup j.Key).isSome <;> simp

/-- C3 as amended, at a concrete input: a report with one issue in each bucket, the second
of them added during the sprint. -/
theorem ProcessReport_added_or_commited_witness :
    ∃ rows v, ProcessReport downEnv sampleReport freshWorld = some ((rows, none), v) ∧
      List.Forall₂
        (fun j row =>
          row.TicketNumber = j.Key ∧
          if (sampleReport.Contents.IssueKeysAddedDuringSprint.lookup j.Key).isSome then
            row.Commited = 0 ∧ row.Added = j.EstimateStatistic.StatFieldValue.Value.toInt ∧
              (0 < row.Added ↔ 0 < j.EstimateStatistic.StatFieldValue.Value.toInt)
          else
            row.Added = 0 ∧ row.Commited = j.EstimateStatistic.StatFieldValue.Value.toInt ∧
              (0 < row.Commited ↔ 0 < j.EstimateStatistic.StatFieldValue.Value.toInt))
        (sampleReport.Contents.CompletedIssues ++
          sampleReport.Contents.IssuesNotCompletedInCurrentSprint ++
          sampleReport.Contents.PuntedIssues)
        rows :=
  ProcessReport_added_or_commited downEnv sampleReport freshWorld (by decide)

/-- C4 fails as stated: the integer estimate 2^63 does not fit an `int`, and a completed
issue that was not added gets Commited = Completed = -2^63, not the estimate. -/
theorem integer_estimate_beyond_int_is_not_copied :
    hugeEstimateIssue.EstimateStatistic.StatFieldValue.Value.IsInteger 9223372036854775808 ∧
      hugeEstimateIssue.CurrentEstimateStatistic.StatFieldValue.Value.IsInteger
        9223372036854775808 ∧
      (generateRow downEnv hugeEstimateIssue false "IMR Sprint 2021-W05-06" issueCompleted
        freshWorld).map (fun res => (res.1.Commited, res.1.Completed)) =
        some (-9223372036854775808, -9223372036854775808) ∧
      (-9223372036854775808 : Int) ≠ 9223372036854775808 := by
  decide

/-- C4 as amended: with an endpoint that parses, for an issue whose original estimate is
the integer `e` and whose current estimate is the integer `c`, both in the range of
`int`, `generateRow` fills the numeric fields as the rule table says. -/
theorem generateRow_rule_table (env : Env) (j : Issue) (added : Bool) (sprintName cat : String)
    (w : World) (e c : Int)
    (hurl : (env.urlParse env.EndpointPrefix).isSome = true)
    (he : j.EstimateStatistic.StatFieldValue.Value.IsInteger e)
    (hc : j.CurrentEstimateStatistic.StatFieldValue.Value.IsInteger c)
    (hre : minInt ≤ e ∧ e ≤ maxInt) (hrc : minInt ≤ c ∧ c ≤ maxInt) :
    ∃ row v, generateRow env j added sprintName cat w = some (row, v) ∧
      (if added then row.Added = e ∧ row.Commited = 0 else row.Commited = e ∧ row.Added = 0) ∧
      (cat = issueCompleted → row.Completed = e ∧ row.CarriedOver = 0 ∧ row.Dropped = 0) ∧
      (cat = issueNotCompleted → row.CarriedOver = c ∧ row.Completed = 0 ∧ row.Dropped = 0) ∧
      (cat = issueRemoved → row.Dropped = e ∧ row.Completed = 0 ∧ row.CarriedOver = 0) := by
  have d12 : issueCompleted ≠ issueNotCompleted := by decide
  have d13 : issueCompleted ≠ issueRemoved := by decide
  have d23 : issueNotCompleted ≠ issueRemoved := by decide
  obtain ⟨u, hu⟩ := Option.isSome_iff_exists.mp hurl
  refine ⟨_, _, generateRow_eq env j added sprintName cat w u hu, ?_⟩
  rw [toInt_of_isInteger _ e he hre, toInt_of_isInteger _ c hc hrc]
  refine ⟨?_, ?_, ?_, ?_⟩
  · cases added <;> simp
  · rintro rfl
    simp [d12, d13]
  · rintro rfl
    simp [d12.symm, d23]
  · rintro rfl
    simp [d13.symm, d23.symm]

/-- C4 at the end-to-end scenario of the specification: a completed issue with estimate 5
that was not added gives commited 5, added 0, completed 5, dropped 0, carried over 0
and adjusted 5. -/
theorem generateRow_rule_table_witness :
    (generateRow downEnv (issueOf "PROJ-1" "[Backend] Fix bug" (.finite 5 0) (.finite 5 0))
        false "IMR Sprint 2021-W05-06" issueCompleted freshWorld).map (fun res => res.1) =
        some { Sprint := "2021-W05-06", Dicipline := "Backend", TicketNumber := "PROJ-1",
               Title := "[Backend] Fix bug",
               Link := hyperlink "https://jira.example.com/browse/PROJ-1" "[Backend] Fix bug",
               Commited := 5, Dropped := 0, Added := 0, Adjusted := 5, CarriedOver := 0,
               Completed := 5 } ∧
      ∃ row v,
        generateRow downEnv (issueOf "PROJ-1" "[Backend] Fix bug" (.finite 5 0) (.finite 5 0))
          false "IMR Sprint 2021-W05-06" issueCompleted freshWorld = some (row, v) ∧
        (if false then row.Added = 5 ∧ row.Commited = 0 else row.Commited = 5 ∧ row.Added = 0) ∧
        (issueCompleted = issueCompleted →
          row.Completed = 5 ∧ row.CarriedOver = 0 ∧ row.Dropped = 0) ∧
        (issueCompleted = issueNotCompleted →
          row.CarriedOver = 5 ∧ row.Completed = 0 ∧ row.Dropped = 0) ∧
        (issueCompleted = issueRemoved →
          row.Dropped = 5 ∧ row.Completed = 0 ∧ row.CarriedOver = 0) :=
  ⟨by decide,
    generateRow_rule_table downEnv
      (issueOf "PROJ-1" "[Backend] Fix bug" (.finite 5 0) (.finite 5 0))
      false "IMR Sprint 2021-W05-06" issueCompleted freshWorld 5 5
      (by decide) (by decide) (by decide) (by decide) (by decide)⟩

/-- C5: with an endpoint that parses, `ProcessReport` returns a nil error and one row per
issue whatever the tracker answers; and when the key of an issue is not cached, its
title matches no pattern and the request for its details fails, its row has
discipline "Other" and is otherwise the row produced under any other behaviour
`get` of the tracker. -/
theorem discipline_failure_never_aborts_report (env : Env) (report : ReportResponse)
    (w : World) (hurl : (env.urlParse env.EndpointPrefix).isSome = true) :
    (∃ rows v, ProcessReport env report w = some ((rows, none), v) ∧
      rows.map (fun row => row.TicketNumber) =
        (report.Contents.CompletedIssues ++ report.Contents.IssuesNotCompletedInCurrentSprint ++
          report.Contents.PuntedIssues).map (fun j => j.Key)) ∧
    ∀ (j : Issue) (added : Bool) (sprintName cat : String) (v : World) (err : String)
      (get : List String → String → Except String SimpleIssue),
      v.disciplines.lookup j.Key = none →
      (env.rangeOrder v.ranged).Perm regexMap →
      (∀ e ∈ regexMap, e.2.MatchString j.Summary = false) →
      env.Get v.fetched j.Key = .error err →
      ∃ row other v1 v2,
        generateRow env j added sprintName cat v = some (row, v1) ∧
        generateRow { env with Get := get } j added sprintName cat v = some (other, v2) ∧
        row.Dicipline = "Other" ∧ row = { other with Dicipline := "Other" } := by
  obtain ⟨u, hu⟩ := Option.isSome_iff_exists.mp hurl
  constructor
  · obtain ⟨rows, v, hrows, h⟩ := ProcessReport_rows env report w u hu
      (fun j row => row.TicketNumber = j.Key)
      (fun j cat w row v hrow => by
        rw [generateRow_eq env j _ _ cat w u hu] at hrow
        cases hrow
        rfl)
    exact ⟨rows, v, hrows, forall₂_map_eq _ _ _ _ h⟩
  · intro j added sprintName cat v err get hmiss hperm hno hget
    have hfind := find_none_of_no_pattern _ _ hperm hno
    refine ⟨_, _, _, _, generateRow_eq env j added sprintName cat v u hu,
      generateRow_eq { env with Get := get } j added sprintName cat v u hu, ?_, ?_⟩
    · rw [solveDicipline_fetch_error env j v err hmiss hfind hget]
    · rw [solveDicipline_fetch_error env j v err hmiss hfind hget]

/-- C5 at a concrete input: the tracker is down, the issue has no tag in its title. -/
theorem discipline_failure_never_aborts_report_witness :
    ∃ row other v1 v2,
      generateRow downEnv untaggedIssue true "IMR Sprint 2021-W05-06" issueNotCompleted
        freshWorld = some (row, v1) ∧
      generateRow { downEnv with Get := (answeringEnv "QA" []).Get } untaggedIssue true
        "IMR Sprint 2021-W05-06" issueNotCompleted freshWorld = some (other, v2) ∧
      row.Dicipline = "Other" ∧ row = { other with Dicipline := "Other" } :=
  (discipline_failure_never_aborts_report downEnv sampleReport freshWorld (by decide)).2
    untaggedIssue true "IMR Sprint 2021-W05-06" issueNotCompleted freshWorld
    "connection refused" (answeringEnv "QA" []).Get
    (by decide) (List.Perm.refl _) (by decide) rfl

/-- C6: when the key is not cached, the title matches no pattern and the request fails,
or succeeds with an empty discipline field and no component, `solveDicipline` returns
"Other" and leaves the cache as it was; the next call for the same issue sends the
request again. -/
theorem other_is_never_cached (env : Env) (issue : Issue) (w : World)
    (hperm : ∀ n, (env.rangeOrder n).Perm regexMap)
    (hmiss : w.disciplines.lookup issue.Key = none)
    (hno : ∀ e ∈ regexMap, e.2.MatchString issue.Summary = false)
    (hget : (∃ err, env.Get w.fetched issue.Key = .error err) ∨
      ∃ d, env.Get w.fetched issue.Key = .ok d ∧ d.Fields.Discipline.Value = "" ∧
        d.Fields.Components = []) :
    (solveDicipline env issue w).1.1 = "Other" ∧
      (solveDicipline env issue w).2.disciplines = w.disciplines ∧
      (solveDicipline env issue w).2.fetched = w.fetched ++ [issue.Key] ∧
      (solveDicipline env issue (solveDicipline env issue w).2).2.fetched =
        w.fetched ++ [issue.Key] ++ [issue.Key] := by
  have hfind := find_none_of_no_pattern _ _ (hperm w.ranged) hno
  have hfirst : (solveDicipline env issue w).1.1 = "Other" ∧
      (solveDicipline env issue w).2.disciplines = w.disciplines ∧
      (solveDicipline env issue w).2.fetched = w.fetched ++ [issue.Key] := by
    rcases hget with ⟨err, hg⟩ | ⟨d, hg, hv, hc⟩
    · rw [solveDicipline_fetch_error env issue w err hmiss hfind hg]
      exact ⟨rfl, rfl, rfl⟩
    · rw [solveDicipline_fetch_ok env issue w d hmiss hfind hg]
      simp [hv, hc]
  refine ⟨hfirst.1, hfirst.2.1, hfirst.2.2, ?_⟩
  have hmiss2 : (solveDicipline env issue w).2.disciplines.lookup issue.Key = none := by
    rw [hfirst.2.1]
    exact hmiss
  have hfind2 := find_none_of_no_pattern _ issue.Summary
    (hperm (solveDicipline env issue w).2.ranged) hno
  rw [solveDicipline_fetches env issue _ hmiss2 hfind2, hfirst.2.2]

/-- C6 at a concrete input: the tracker is down, the issue has no tag in its title. -/
theorem other_is_never_cached_witness :
    (solveDicipline downEnv untaggedIssue freshWorld).1.1 = "Other" ∧
      (solveDicipline downEnv untaggedIssue freshWorld).2.disciplines = freshWorld.disciplines ∧
      (solveDicipline downEnv untaggedIssue freshWorld).2.fetched =
        freshWorld.fetched ++ [untaggedIssue.Key] ∧
      (solveDicipline downEnv untaggedIssue
          (solveDicipline downEnv untaggedIssue freshWorld).2).2.fetched =
        freshWorld.fetched ++ [untaggedIssue.Key] ++ [untaggedIssue.Key] :=
  other_is_never_cached downEnv untaggedIssue freshWorld (fun _ => List.Perm.refl _)
    (by decide) (by decide) (Or.inl ⟨"connection refused", rfl⟩)

/-- C7 fails as stated: the first request fails and nothing is cached, so the second call
sends a second request, and here it returns another label. -/
theorem two_calls_two_fetches_two_labels :
    (solveDicipline flakyEnv untaggedIssue freshWorld).1.1 = "Other" ∧
      (solveDicipline flakyEnv untaggedIssue
        (solveDicipline flakyEnv untaggedIssue freshWorld).2).1.1 = "QA" ∧
      (solveDicipline flakyEnv untaggedIssue
        (solveDicipline flakyEnv untaggedIssue freshWorld).2).2.fetched = ["PROJ-2", "PROJ-2"] := by
  decide

/-- C7 as amended: when the first of two consecutive calls for an issue leaves its key in
the cache, the second call returns the same label and the two calls send at most one
request. -/
theorem solveDicipline_twice_when_cached (env : Env) (issue : Issue) (w : World)
    (hcached : ((solveDicipline env issue w).2.disciplines.lookup issue.Key).isSome = true) :
    (solveDicipline env issue (solveDicipline env issue w).2).1.1 =
        (solveDicipline env issue w).1.1 ∧
      (solveDicipline env issue (solveDicipline env issue w).2).2.fetched.length ≤
        w.fetched.length + 1 := by
  obtain ⟨d, hd⟩ := Option.isSome_iff_exists.mp hcached
  have h := solveDicipline_cached_label env issue w
  rw [solveDicipline_hit env issue _ d hd]
  exact ⟨h.1 d hd, h.2⟩

/-- C7 as amended, at a concrete input: the title carries the tag of a discipline. -/
theorem solveDicipline_twice_when_cached_witness :
    (solveDicipline downEnv (issueOf "PROJ-1" "[Backend] Fix bug" (.finite 5 0) (.finite 5 0))
        (solveDicipline downEnv
          (issueOf "PROJ-1" "[Backend] Fix bug" (.finite 5 0) (.finite 5 0)) freshWorld).2).1.1 =
        (solveDicipline downEnv
          (issueOf "PROJ-1" "[Backend] Fix bug" (.finite 5 0) (.finite 5 0)) freshWorld).1.1 ∧
      (solveDicipline downEnv (issueOf "PROJ-1" "[Backend] Fix bug" (.finite 5 0) (.finite 5 0))
        (solveDicipline downEnv
          (issueOf "PROJ-1" "[Backend] Fix bug" (.finite 5 0) (.finite 5 0))
          freshWorld).2).2.fetched.length ≤ freshWorld.fetched.length + 1 :=
  solveDicipline_twice_when_cached downEnv
    (issueOf "PROJ-1" "[Backend] Fix bug" (.finite 5 0) (.finite 5 0)) freshWorld (by decide)

/-- C8: when the key is not cached and the title has exactly one opening bracket, followed
at once by one of the five tags in any letter case and then by the closing bracket,
`solveDicipline` returns the tag in its canonical spelling, caches it under the key
and sends no request, in whatever order the patterns are tried. -/
theorem solveDicipline_title_tag (env : Env) (issue : Issue) (w : World) (tag : String)
    (before variant after : List Char)
    (hperm : (env.rangeOrder w.ranged).Perm regexMap)
    (hmiss : w.disciplines.lookup issue.Key = none)
    (htag : tag ∈ ["Backend", "Web", "AutoQA", "Android", "iOS"])
    (hcase : List.Forall₂ (fun v t => v = t.toLower ∨ v = t.toUpper) variant tag.toList)
    (htitle : issue.Summary = taggedTitle before variant after)
    (hbefore : '[' ∉ before) (hafter : '[' ∉ after) :
    (solveDicipline env issue w).1 = (tag, none) ∧
      (solveDicipline env issue w).2.disciplines = mapSet issue.Key tag w.disciplines ∧
      (solveDicipline env issue w).2.disciplines.lookup issue.Key = some tag ∧
      (solveDicipline env issue w).2.fetched = w.fetched := by
  obtain ⟨e, hfind, hkey⟩ := find_the_only_match (env.rangeOrder w.ranged) issue.Summary tag
    hperm htag (htitle ▸ only_the_tag_matches tag before variant after htag hcase hbefore hafter)
  rw [solveDicipline_pattern env issue w e hmiss hfind, hkey]
  exact ⟨rfl, rfl, lookup_mapSet_self _ _ _, rfl⟩

/-- C8 at a concrete input: the title `[backend] fix`, with the patterns tried in the
order of the source. -/
theorem solveDicipline_title_tag_witness :
    (solveDicipline downEnv (issueOf "PROJ-7" "[backend] fix" (.finite 2 0) (.finite 2 0))
        freshWorld).1 = ("Backend", none) ∧
      (solveDicipline downEnv (issueOf "PROJ-7" "[backend] fix" (.finite 2 0) (.finite 2 0))
        freshWorld).2.disciplines =
        mapSet (issueOf "PROJ-7" "[backend] fix" (.finite 2 0) (.finite 2 0)).Key "Backend"
          freshWorld.disciplines ∧
      (solveDicipline downEnv (issueOf "PROJ-7" "[backend] fix" (.finite 2 0) (.finite 2 0))
        freshWorld).2.disciplines.lookup
          (issueOf "PROJ-7" "[backend] fix" (.finite 2 0) (.finite 2 0)).Key = some "Backend" ∧
      (solveDicipline downEnv (issueOf "PROJ-7" "[backend] fix" (.finite 2 0) (.finite 2 0))
        freshWorld).2.fetched = freshWorld.fetched :=
  solveDicipline_title_tag downEnv (issueOf "PROJ-7" "[backend] fix" (.finite 2 0) (.finite 2 0))
    freshWorld "Backend" [] "backend".toList " fix".toList
    (List.Perm.refl _) (by decide) (by decide) (by simp [String.toList]) (by decide)
    (by decide) (by decide)

/-- C9: when the key is not cached, the title matches no pattern and the request
succeeds, a non-empty discipline field is returned and cached whatever the components
are; with an empty field and at least one component, the name of the first component
is returned and cached. -/
theorem solveDicipline_from_details (env : Env) (issue : Issue) (w : World) (d : SimpleIssue)
    (hperm : (env.rangeOrder w.ranged).Perm regexMap)
    (hmiss : w.disciplines.lookup issue.Key = none)
    (hno : ∀ e ∈ regexMap, e.2.MatchString issue.Summary = false)
    (hget : env.Get w.fetched issue.Key = .ok d) :
    (d.Fields.Discipline.Value ≠ "" →
        (solveDicipline env issue w).1 = (d.Fields.Discipline.Value, none) ∧
          (solveDicipline env issue w).2.disciplines =
            mapSet issue.Key d.Fields.Discipline.Value w.disciplines ∧
          (solveDicipline env issue w).2.disciplines.lookup issue.Key =
            some d.Fields.Discipline.Value) ∧
      (d.Fields.Discipline.Value = "" → ∀ c cs, d.Fields.Components = c :: cs →
        (solveDicipline env issue w).1 = (c.Name, none) ∧
          (solveDicipline env issue w).2.disciplines = mapSet issue.Key c.Name w.disciplines ∧
          (solveDicipline env issue w).2.disciplines.lookup issue.Key = some c.Name) := by
  have hfind := find_none_of_no_pattern _ _ hperm hno
  rw [solveDicipline_fetch_ok env issue w d hmiss hfind hget]
  constructor
  · intro hv
    simp [hv, lookup_mapSet_self]
  · intro hv c cs hc
    simp [hv, hc, lookup_mapSet_self]

/-- C9 at a concrete input: the tracker answers with discipline field "QA" and a
component "Mobile". -/
theorem solveDicipline_from_details_witness :
    (solveDicipline (answeringEnv "QA" ["Mobile"]) untaggedIssue freshWorld).1 = ("QA", none) ∧
      (solveDicipline (answeringEnv "QA" ["Mobile"]) untaggedIssue freshWorld).2.disciplines =
        mapSet untaggedIssue.Key "QA" freshWorld.disciplines ∧
      (solveDicipline (answeringEnv "QA" ["Mobile"]) untaggedIssue
        freshWorld).2.disciplines.lookup untaggedIssue.Key = some "QA" :=
  (solveDicipline_from_details (answeringEnv "QA" ["Mobile"]) untaggedIssue freshWorld
    (detailsOf "PROJ-2" "QA" ["Mobile"]) (List.Perm.refl _) (by decide) (by decide) rfl).1
    (by decide)

/-- C10: when the key of an issue is in the cache, `solveDicipline` returns the cached
label and a nil error whatever the title is, sends no request, tries no pattern and
leaves the cache as it was. -/
theorem cache_hit_wins (env : Env) (issue : Issue) (w : World) (d : String)
    (hhit : w.disciplines.lookup issue.Key = some d) :
    (solveDicipline env issue w).1 = (d, none) ∧
      (solveDicipline env issue w).2.fetched = w.fetched ∧
      (solveDicipline env issue w).2.ranged = w.ranged ∧
      (solveDicipline env issue w).2.disciplines = w.disciplines := by
  rw [solveDicipline_hit env issue w d hhit]
  exact ⟨rfl, rfl, rfl, rfl⟩

/-- C10 at a concrete input: the key is cached as "Web" and the title carries the tag
of another discipline. -/
theorem cache_hit_wins_witness :
    (solveDicipline downEnv (issueOf "PROJ-1" "[Backend] Fix bug" (.finite 5 0) (.finite 5 0))
        { freshWorld with disciplines := [("PROJ-1", "Web")] }).1 = ("Web", none) ∧
      (solveDicipline downEnv (issueOf "PROJ-1" "[Backend] Fix bug" (.finite 5 0) (.finite 5 0))
        { freshWorld with disciplines := [("PROJ-1", "Web")] }).2.fetched = [] ∧
      (solveDicipline downEnv (issueOf "PROJ-1" "[Backend] Fix bug" (.finite 5 0) (.finite 5 0))
        { freshWorld with disciplines := [("PROJ-1", "Web")] }).2.ranged = 0 ∧
      (solveDicipline downEnv (issueOf "PROJ-1" "[Backend] Fix bug" (.finite 5 0) (.finite 5 0))
        { freshWorld with disciplines := [("PROJ-1", "Web")] }).2.disciplines =
        [("PROJ-1", "Web")] :=
  cache_hit_wins downEnv (issueOf "PROJ-1" "[Backend] Fix bug" (.finite 5 0) (.finite 5 0))
    { freshWorld with disciplines := [("PROJ-1", "Web")] } "Web" (by decide)

/-! ## The sprint pattern -/

theorem digit_not_W (c : Char) (h : perlDigit c = true) : (c == 'W') = false := by
  rw [Bool.eq_false_iff]
  intro hc
  have : c = 'W' := by simpa using hc
  subst this
  exact absurd h (by decide)

theorem run_cat_single (r t : Regexp) (caps c1 : Captures) (s m : List Char)
    (h : r.run caps s = [(c1, m)]) : (Regexp.cat r t).run caps s = t.run c1 m := by
  simp [Regexp.run, h]

theorem run_cat_nil (r t : Regexp) (caps : Captures) (s : List Char)
    (h : r.run caps s = []) : (Regexp.cat r t).run caps s = [] := by
  simp [Regexp.run, h]

theorem run_char_of (p : Char → Bool) (caps : Captures) (c : Char) (cs : List Char)
    (h : p c = true) : (Regexp.char p).run caps (c :: cs) = [(caps, cs)] := by
  simp [Regexp.run, h]

theorem run_lit (caps : Captures) (c : Char) (cs : List Char) :
    (lit c).run caps (c :: cs) = [(caps, cs)] := by
  simp [lit, Regexp.run]

theorem run_str (l rest : List Char) (caps : Captures) :
    (Regexp.seq (l.map lit)).run caps (l ++ rest) = [(caps, rest)] := by
  induction l with
  | nil => rfl
  | cons c cs ih =>
    simp only [List.map_cons, Regexp.seq, List.cons_append]
    rw [run_cat_single (lit c) _ caps caps _ (cs ++ rest) (run_lit _ _ _), ih]

theorem run_spaces (caps : Captures) (c : Char) (rest : List Char) (h : perlSpace c = false) :
    (plus perlSpace).run caps (' ' :: c :: rest) = [(caps, c :: rest)] := by
  simp only [plus]
  rw [run_cat_single _ _ caps caps _ (c :: rest) (run_char_of _ _ _ _ (by decide))]
  simp [Regexp.run, starRun, h]

theorem run_two_digits (n : Nat) (caps : Captures) (a b : Char) (rest : List Char)
    (ha : perlDigit a = true) (hb : perlDigit b = true) :
    (Regexp.group n (Regexp.seq [.char perlDigit, .char perlDigit])).run caps
        (a :: b :: rest) = [((n, [a, b]) :: caps, rest)] := by
  have hlen : rest.length + 1 + 1 - rest.length = 2 := by omega
  simp [Regexp.run, Regexp.seq, ha, hb, hlen]

theorem run_four_digits (n : Nat) (caps : Captures) (a b c d : Char) (rest : List Char)
    (ha : perlDigit a = true) (hb : perlDigit b = true) (hc : perlDigit c = true)
    (hd : perlDigit d = true) :
    (Regexp.group n (Regexp.seq [.char perlDigit, .char perlDigit, .char perlDigit,
        .char perlDigit])).run caps (a :: b :: c :: d :: rest) =
      [((n, [a, b, c, d]) :: caps, rest)] := by
  have hlen : rest.length + 1 + 1 + 1 + 1 - rest.length = 4 := by omega
  simp [Regexp.run, Regexp.seq, ha, hb, hc, hd, hlen]

/-- After a dash, an optional W and two digits: the one way `-W?(\d{2})t` matches is the
way `t` matches after them. -/
theorem run_week (n : Nat) (t : Regexp) (caps : Captures) (w : Bool) (a b : Char)
    (rest : List Char) (ha : perlDigit a = true) (hb : perlDigit b = true) :
    (Regexp.cat (lit '-') (.cat (.opt (lit 'W'))
        (.cat (.group n (Regexp.seq [.char perlDigit, .char perlDigit])) t))).run caps
        ('-' :: ((if w then ['W'] else []) ++ a :: b :: rest)) =
      t.run ((n, [a, b]) :: caps) rest := by
  rw [run_cat_single (lit '-') _ caps caps _ _ (run_lit _ _ _)]
  cases w with
  | false =>
    have hopt : (Regexp.opt (lit 'W')).run caps (a :: b :: rest) = [(caps, a :: b :: rest)] := by
      simp [Regexp.run, lit, digit_not_W a ha]
    simp only [Bool.false_eq_true, if_false, List.nil_append]
    rw [run_cat_single _ _ caps caps _ _ hopt,
      run_cat_single _ _ caps _ _ _ (run_two_digits n caps a b rest ha hb)]
  | true =>
    have hW : perlDigit 'W' = false := by decide
    simp only [if_true, List.singleton_append]
    simp only [Regexp.run, lit, Regexp.seq, beq_self_eq_true, if_true, List.singleton_append,
      List.flatMap_cons, List.flatMap_nil, List.append_nil, ha, hb, hW, List.map_cons,
      List.map_nil, Bool.false_eq_true, if_false, List.nil_append]
    have hlen : rest.length + 1 + 1 - rest.length = 2 := by omega
    simp [hlen]

/-- The sprint pattern matches a name of its form in one way, with the year and the two
weeks in its groups. -/
theorem run_sprintRegex (team : String) (w1 w2 : Bool) (y1 y2 y3 y4 n1 n2 m1 m2 : Char)
    (hteam : team ∈ ["IMR", "MNZ", "STR"])
    (hy1 : perlDigit y1 = true) (hy2 : perlDigit y2 = true) (hy3 : perlDigit y3 = true)
    (hy4 : perlDigit y4 = true) (hn1 : perlDigit n1 = true) (hn2 : perlDigit n2 = true)
    (hm1 : perlDigit m1 = true) (hm2 : perlDigit m2 = true) :
    sprintRegex.run []
        (sprintNameOf team [y1, y2, y3, y4] [n1, n2] [m1, m2] w1 w2).toList =
      [([(3, [m1, m2]), (2, [n1, n2]), (1, [y1, y2, y3, y4])], [])] := by
  have hspace : perlSpace y1 = false := by
    rw [Bool.eq_false_iff]
    intro hs
    simp only [perlSpace, Bool.or_eq_true, beq_iff_eq] at hs
    rcases hs with (((h | h) | h) | h) | h <;> subst h <;> exact absurd hy1 (by decide)
  have hteamrun : ∀ rest, (Regexp.alt (str "IMR") (.alt (str "MNZ") (str "STR"))).run []
      (team.toList ++ rest) = [([], rest)] := by
    intro rest
    simp only [List.mem_cons, List.mem_singleton, List.not_mem_nil, or_false] at hteam
    rcases hteam with rfl | rfl | rfl <;> rfl
  refine (run_cat_single _ _ [] [] _ _ (hteamrun _)).trans ?_
  refine (run_cat_single _ _ [] [] _ _ (run_spaces [] 'S' _ (by decide))).trans ?_
  refine (run_cat_single _ _ [] [] _ _ (run_str "Sprint".toList _ [])).trans ?_
  refine (run_cat_single _ _ [] [] _ _ (run_spaces [] y1 _ hspace)).trans ?_
  refine (run_cat_single _ _ [] _ _ _
    (run_four_digits 1 [] y1 y2 y3 y4 _ hy1 hy2 hy3 hy4)).trans ?_
  refine (run_week 2 _ _ w1 n1 n2 _ hn1 hn2).trans ?_
  refine (run_week 3 _ _ w2 m1 m2 _ hm1 hm2).trans ?_
  rfl

theorem search_of_run (re : Regexp) (s : List Char) (m : Captures × List Char)
    (ms : List (Captures × List Char)) (h : re.run [] s = m :: ms) :
    re.search s = some (s, m) := by
  cases s with
  | nil => simp [Regexp.search, h]
  | cons c cs => simp [Regexp.search, h]

theorem digits_of_length_two (l : List Char) (hl : l.length = 2)
    (hd : ∀ c ∈ l, perlDigit c = true) :
    ∃ a b, l = [a, b] ∧ perlDigit a = true ∧ perlDigit b = true := by
  match l, hl with
  | [a, b], _ => exact ⟨a, b, rfl, hd a (by simp), hd b (by simp)⟩

theorem digits_of_length_four (l : List Char) (hl : l.length = 4)
    (hd : ∀ c ∈ l, perlDigit c = true) :
    ∃ a b c d, l = [a, b, c, d] ∧ perlDigit a = true ∧ perlDigit b = true ∧
      perlDigit c = true ∧ perlDigit d = true := by
  match l, hl with
  | [a, b, c, d], _ =>
    exact ⟨a, b, c, d, rfl, hd a (by simp), hd b (by simp), hd c (by simp), hd d (by simp)⟩

/-- C11: `SimplifySprintName` rewrites a name of the form
`<TEAM> Sprint <YYYY>-W?<NN>-W?<MM>` (TEAM one of IMR, MNZ, STR; YYYY four digits; NN
and MM two digits each, each with or without a W before it) to `<YYYY>-W<NN>-<MM>`,
and it returns a name that the sprint pattern does not match anywhere unchanged. -/
theorem SimplifySprintName_sprint_form (team : String) (year first last : List Char)
    (w1 w2 : Bool) (hteam : team ∈ ["IMR", "MNZ", "STR"])
    (hyear : year.length = 4) (hfirst : first.length = 2) (hlast : last.length = 2)
    (hdyear : ∀ c ∈ year, perlDigit c = true) (hdfirst : ∀ c ∈ first, perlDigit c = true)
    (hdlast : ∀ c ∈ last, perlDigit c = true) :
    SimplifySprintName (sprintNameOf team year first last w1 w2) =
        String.mk (year ++ '-' :: 'W' :: (first ++ '-' :: last)) ∧
      ∀ name, sprintRegex.MatchString name = false → SimplifySprintName name = name := by
  constructor
  · obtain ⟨y1, y2, y3, y4, rfl, hy1, hy2, hy3, hy4⟩ := digits_of_length_four year hyear hdyear
    obtain ⟨n1, n2, rfl, hn1, hn2⟩ := digits_of_length_two first hfirst hdfirst
    obtain ⟨m1, m2, rfl, hm1, hm2⟩ := digits_of_length_two last hlast hdlast
    have hrun := run_sprintRegex team w1 w2 y1 y2 y3 y4 n1 n2 m1 m2 hteam hy1 hy2 hy3 hy4
      hn1 hn2 hm1 hm2
    have hsearch := search_of_run _ _ _ _ hrun
    have hgroups : sprintRegex.numGroups = 3 := by decide
    have hrange : List.range 3 = [0, 1, 2] := by decide
    simp only [SimplifySprintName, Regexp.MatchString, Regexp.FindStringSubmatch, hsearch,
      hgroups, hrange]
    simp [List.lookup]
    rfl
  · intro name hname
    simp [SimplifySprintName, hname]

/-- C11 at the examples of the specification: "IMR Sprint 2021-W05-06" becomes
"2021-W05-06", and "Random Sprint Name" stays as it is. -/
theorem SimplifySprintName_sprint_form_witness :
    (SimplifySprintName "IMR Sprint 2021-W05-06" = "2021-W05-06" ∧
      SimplifySprintName "Random Sprint Name" = "Random Sprint Name") ∧
    SimplifySprintName (sprintNameOf "IMR" "2021".toList "05".toList "06".toList true false) =
      String.mk ("2021".toList ++ '-' :: 'W' :: ("05".toList ++ '-' :: "06".toList)) ∧
    ∀ name, sprintRegex.MatchString name = false → SimplifySprintName name = name :=
  ⟨by decide,
    SimplifySprintName_sprint_form "IMR" "2021".toList "05".toList "06".toList true false
      (by decide) (by decide) (by decide) (by decide) (by decide) (by decide) (by decide)⟩

/-! ## Trimmed text -/

theorem dropWhile_append_singleton (p : Char → Bool) (l : List Char) (x : Char)
    (hx : p x = false) : (l ++ [x]).dropWhile p = l.dropWhile p ++ [x] := by
  induction l with
  | nil => simp [List.dropWhile, hx]
  | cons c cs ih =>
    by_cases hc : p c = true
    · simp [List.dropWhile, hc, ih]
    · simp [List.dropWhile, hc]

/-- The text between the leading and the trailing run of `p` starts and ends with a
character outside `p`. -/
theorem trimmed_ends (p : Char → Bool) (l : List Char) :
    (∀ c, ((l.dropWhile p).reverse.dropWhile p).reverse.head? = some c → p c = false) ∧
      ∀ c, ((l.dropWhile p).reverse.dropWhile p).reverse.getLast? = some c → p c = false := by
  constructor
  · intro c hc
    cases hl : l.dropWhile p with
    | nil => simp [hl] at hc
    | cons x t =>
      have hx : p x = false := by
        have h := List.head?_dropWhile_not p l
        simp [hl] at h
        simpa using h
      rw [hl, List.reverse_cons, dropWhile_append_singleton p _ x hx] at hc
      simp at hc
      rw [← hc]
      exact hx
  · intro c hc
    rw [List.getLast?_reverse] at hc
    have h := List.head?_dropWhile_not p (l.dropWhile p).reverse
    rw [hc] at h
    simpa using h

theorem trimmed_subset (p : Char → Bool) (l : List Char) (c : Char)
    (hc : c ∈ ((l.dropWhile p).reverse.dropWhile p).reverse) : c ∈ l := by
  rw [List.mem_reverse] at hc
  have h1 := (List.dropWhile_sublist p (l := (l.dropWhile p).reverse)).subset hc
  rw [List.mem_reverse] at h1
  exact (List.dropWhile_sublist p (l := l)).subset h1

/-- C12: with an endpoint that parses to `u`, `generateJiraLink` returns the formula
=HYPERLINK("U","T"), where U is the text of `u` with the path joined from the path of
`u`, /browse/ and the issue key, and T is the title with every double quote replaced
by a single quote and then trimmed; T has no double quote and neither starts nor
ends with white space. -/
theorem generateJiraLink_formula (env : Env) (issueID issueTitle : String) (u : URL)
    (hurl : env.urlParse env.EndpointPrefix = some u) :
    generateJiraLink env issueID issueTitle =
        some ("=HYPERLINK(" ++ String.singleton dquote ++
          env.urlString { u with Path := env.pathJoin [u.Path, "/browse/", issueID] } ++
          String.singleton dquote ++ "," ++ String.singleton dquote ++
          TrimSpace (ReplaceAll issueTitle dquote squote) ++ String.singleton dquote ++ ")") ∧
      (ReplaceAll issueTitle dquote squote).toList =
        issueTitle.toList.map (fun c => if c = dquote then squote else c) ∧
      dquote ∉ (TrimSpace (ReplaceAll issueTitle dquote squote)).toList ∧
      (∀ c, (TrimSpace (ReplaceAll issueTitle dquote squote)).toList.head? = some c →
        isSpace c = false) ∧
      (∀ c, (TrimSpace (ReplaceAll issueTitle dquote squote)).toList.getLast? = some c →
        isSpace c = false) := by
  refine ⟨?_, rfl, ?_, ?_, ?_⟩
  · simp only [generateJiraLink, hurl, hyperlink, issueBrowseSuffix]
  · intro hmem
    have h := trimmed_subset isSpace _ _ hmem
    simp only [ReplaceAll, String.toList, List.mem_map] at h
    obtain ⟨x, _, hx⟩ := h
    by_cases hxq : x = dquote
    · rw [if_pos hxq] at hx
      exact absurd hx (by decide)
    · rw [if_neg hxq] at hx
      exact hxq hx
  · exact (trimmed_ends isSpace _).1
  · exact (trimmed_ends isSpace _).2

/-- C12 at a concrete input: a title with double quotes and white space around it. -/
theorem generateJiraLink_formula_witness :
    generateJiraLink downEnv "PROJ-1" (String.mk (' ' :: dquote :: 'a' :: dquote :: [' '])) =
        some ("=HYPERLINK(" ++ String.singleton dquote ++
          "https://jira.example.com/browse/PROJ-1" ++
          String.singleton dquote ++ "," ++ String.singleton dquote ++
          String.mk [squote, 'a', squote] ++ String.singleton dquote ++ ")") ∧
      generateJiraLink downEnv "PROJ-1" (String.mk (' ' :: dquote :: 'a' :: dquote :: [' '])) =
        some ("=HYPERLINK(" ++ String.singleton dquote ++
          downEnv.urlString
            { ({ Scheme := "https", Host := "jira.example.com", Path := "" } : URL) with
              Path := downEnv.pathJoin ["", "/browse/", "PROJ-1"] } ++
          String.singleton dquote ++ "," ++ String.singleton dquote ++
          TrimSpace (ReplaceAll (String.mk (' ' :: dquote :: 'a' :: dquote :: [' ']))
            dquote squote) ++ String.singleton dquote ++ ")") :=
  ⟨by decide,
    (generateJiraLink_formula downEnv "PROJ-1"
      (String.mk (' ' :: dquote :: 'a' :: dquote :: [' ']))
      { Scheme := "https", Host := "jira.example.com", Path := "" } (by decide)).1⟩

/-! ## Rows as values -/

/-- C13: `Convert` returns one entry for each row, in the order of the rows, and each entry
is the list of the eleven fields of its row in the order of their declaration:
Sprint, Dicipline, TicketNumber, Title, Link, Commited, Dropped, Added, Adjusted,
CarriedOver, Completed. -/
theorem Convert_rows_in_declaration_order (m : MySheetRowArray) :
    (MySheetRowArray.Convert m).length = m.length ∧
      List.Forall (fun values => values.length = 11) (MySheetRowArray.Convert m) ∧
      MySheetRowArray.Convert m =
        m.map (fun s =>
          [GoValue.string s.Sprint, GoValue.string s.Dicipline, GoValue.string s.TicketNumber,
            GoValue.string s.Title, GoValue.string s.Link, GoValue.int s.Commited,
            GoValue.int s.Dropped, GoValue.int s.Added, GoValue.int s.Adjusted,
            GoValue.int s.CarriedOver, GoValue.int s.Completed]) := by
  have h : MySheetRowArray.Convert m =
      m.map (fun s =>
        [GoValue.string s.Sprint, GoValue.string s.Dicipline, GoValue.string s.TicketNumber,
          GoValue.string s.Title, GoValue.string s.Link, GoValue.int s.Commited,
          GoValue.int s.Dropped, GoValue.int s.Added, GoValue.int s.Adjusted,
          GoValue.int s.CarriedOver, GoValue.int s.Completed]) := by
    simp only [MySheetRowArray.Convert]
    apply List.map_congr_left
    intro s _
    rfl
  refine ⟨by simp [MySheetRowArray.Convert], ?_, h⟩
  rw [h, List.forall_iff_forall_mem]
  intro values hv
  obtain ⟨s, _, rfl⟩ := List.mem_map.mp hv
  rfl

/-! ## The cache over a sequence of calls -/

theorem lookup_filter_of_ne (k key : String) (m : List (String × String)) (h : k ≠ key) :
    (m.filter (fun e => e.1 != key)).lookup k = m.lookup k := by
  induction m with
  | nil => rfl
  | cons e es ih =>
    obtain ⟨a, b⟩ := e
    by_cases ha : a = key
    · subst ha
      have hk : (k == a) = false := by simpa using h
      simp [List.filter_cons, List.lookup_cons, hk, ih]
    · by_cases hka : k = a
      · subst hka
        simp [List.filter_cons, List.lookup_cons, ha]
      · have hk : (k == a) = false := by simpa using hka
        simp [List.filter_cons, List.lookup_cons, ha, hk, ih]

theorem lookup_mapSet_of_ne (k key v : String) (m : List (String × String)) (h : k ≠ key) :
    (mapSet key v m).lookup k = m.lookup k := by
  have hk : (k == key) = false := by simpa using h
  simp only [mapSet, List.lookup_cons, hk]
  exact lookup_filter_of_ne k key m h

/-- One call leaves every key but the issue's as it was, and leaves the issue's key as it
was when it was cached. -/
theorem solveDicipline_keeps (env : Env) (issue : Issue) (w : World) :
    (∀ k, k ≠ issue.Key →
        (solveDicipline env issue w).2.disciplines.lookup k = w.disciplines.lookup k) ∧
      ∀ d, w.disciplines.lookup issue.Key = some d →
        (solveDicipline env issue w).2.disciplines.lookup issue.Key = some d := by
  cases hl : w.disciplines.lookup issue.Key with
  | some d0 =>
    rw [solveDicipline_hit env issue w d0 hl]
    exact ⟨fun _ _ => rfl, fun d hd => hl ▸ hd⟩
  | none =>
    refine ⟨?_, fun d hd => by simp at hd⟩
    intro k hk
    cases hf : (env.rangeOrder w.ranged).find? (fun e => e.2.MatchString issue.Summary) with
    | some e =>
      rw [solveDicipline_pattern env issue w e hl hf]
      exact lookup_mapSet_of_ne k _ _ _ hk
    | none =>
      cases hg : env.Get w.fetched issue.Key with
      | error err =>
        rw [solveDicipline_fetch_error env issue w err hl hf hg]
      | ok d =>
        rw [solveDicipline_fetch_ok env issue w d hl hf hg]
        split_ifs
        · exact lookup_mapSet_of_ne k _ _ _ hk
        · cases d.Fields.Components with
          | nil => rfl
          | cons c cs => exact lookup_mapSet_of_ne k _ _ _ hk

theorem solveDicipline_keeps_entry (env : Env) (issue : Issue) (w : World) (k d : String)
    (h : w.disciplines.lookup k = some d) :
    (solveDicipline env issue w).2.disciplines.lookup k = some d := by
  by_cases hk : k = issue.Key
  · subst hk
    exact (solveDicipline_keeps env issue w).2 d h
  · rw [(solveDicipline_keeps env issue w).1 k hk]
    exact h

/-- C14: the cache is never invalidated. A key that is mapped to a label stays mapped to
that label after any sequence of calls of `solveDicipline`, whatever the issues and
the answers of the tracker are; and one call leaves the entry of every key other
than the one it resolves as it was (also when there was none). -/
theorem cache_is_never_invalidated (env : Env) (issues : List Issue) (issue : Issue)
    (w : World) (k d : String) (hcached : w.disciplines.lookup k = some d) :
    (solveAll env issues w).disciplines.lookup k = some d ∧
      (solveDicipline env issue w).2.disciplines.lookup k = some d ∧
      ∀ other, other ≠ issue.Key →
        (solveDicipline env issue w).2.disciplines.lookup other = w.disciplines.lookup other := by
  refine ⟨?_, solveDicipline_keeps_entry env issue w k d hcached,
    (solveDicipline_keeps env issue w).1⟩
  induction issues generalizing w with
  | nil => exact hcached
  | cons j js ih => exact ih _ (solveDicipline_keeps_entry env j w k d hcached)

/-- C14 at a concrete input: "PROJ-1" is cached as "Web"; issues with and without a tag
are resolved after it, among them "PROJ-1" under a title with another tag. -/
theorem cache_is_never_invalidated_witness :
    (solveAll flakyEnv
        [untaggedIssue, issueOf "PROJ-1" "[Backend] Fix bug" (.finite 5 0) (.finite 5 0),
          issueOf "PROJ-3" "[ios] Crash" (.finite 2 0) (.finite 2 0), untaggedIssue]
        { freshWorld with disciplines := [("PROJ-1", "Web")] }).disciplines.lookup "PROJ-1" =
        some "Web" ∧
      (solveDicipline flakyEnv untaggedIssue
        { freshWorld with disciplines := [("PROJ-1", "Web")] }).2.disciplines.lookup "PROJ-1" =
        some "Web" ∧
      ∀ other, other ≠ untaggedIssue.Key →
        (solveDicipline flakyEnv untaggedIssue
          { freshWorld with disciplines := [("PROJ-1", "Web")] }).2.disciplines.lookup other =
          ({ freshWorld with disciplines := [("PROJ-1", "Web")] } : World).disciplines.lookup
            other :=
  cache_is_never_invalidated flakyEnv
    [untaggedIssue, issueOf "PROJ-1" "[Backend] Fix bug" (.finite 5 0) (.finite 5 0),
      issueOf "PROJ-3" "[ios] Crash" (.finite 2 0) (.finite 2 0), untaggedIssue]
    untaggedIssue { freshWorld with disciplines := [("PROJ-1", "Web")] } "PROJ-1" "Web"
    (by decide)

/-- C15 fails as stated: with the integer estimate 2^63, which does not fit an `int`,
Adjusted is -2^63 in the categories completed and not-completed, not the estimate. -/
theorem adjusted_of_estimate_beyond_int :
    hugeEstimateIssue.EstimateStatistic.StatFieldValue.Value.IsInteger 9223372036854775808 ∧
      (generateRow downEnv hugeEstimateIssue false "IMR Sprint 2021-W05-06" issueCompleted
        freshWorld).map (fun res => res.1.Adjusted) = some (-9223372036854775808) ∧
      (generateRow downEnv hugeEstimateIssue true "IMR Sprint 2021-W05-06" issueNotCompleted
        freshWorld).map (fun res => res.1.Adjusted) = some (-9223372036854775808) ∧
      (-9223372036854775808 : Int) ≠ 9223372036854775808 := by
  decide

/-- C15 as amended: with an endpoint that parses, for an issue whose original estimate is
the integer `e` and for either value of the added flag, `generateRow` gives
Adjusted = 0 in the category removed, and, when `e` is in the range of `int`,
Adjusted = `e` in the categories completed and not-completed. -/
theorem adjusted_fixed_by_category (env : Env) (j : Issue) (added : Bool)
    (sprintName cat : String) (w : World) (e : Int)
    (hurl : (env.urlParse env.EndpointPrefix).isSome = true)
    (he : j.EstimateStatistic.StatFieldValue.Value.IsInteger e) :
    ∃ row v, generateRow env j added sprintName cat w = some (row, v) ∧
      (cat = issueRemoved → row.Adjusted = 0) ∧
      (minInt ≤ e ∧ e ≤ maxInt →
        cat = issueCompleted ∨ cat = issueNotCompleted → row.Adjusted = e) := by
  have d13 : issueCompleted ≠ issueRemoved := by decide
  have d23 : issueNotCompleted ≠ issueRemoved := by decide
  obtain ⟨u, hu⟩ := Option.isSome_iff_exists.mp hurl
  have hadj := adjusted_identity added cat j.EstimateStatistic.StatFieldValue.Value
  refine ⟨_, _, generateRow_eq env j added sprintName cat w u hu, ?_, ?_⟩
  · rintro rfl
    show wrapInt _ = 0
    rw [hadj]
    cases added <;> simp
  · intro hre hcat
    show wrapInt _ = e
    rw [hadj, toInt_of_isInteger _ e he hre]
    rcases hcat with rfl | rfl
    · cases added <;> simp [d13]
    · cases added <;> simp [d23]

/-- C15 as amended, at concrete inputs: an issue with estimate 2^63 that was added during
the sprint and then removed, and an issue with estimate 3 that was added and not
completed. -/
theorem adjusted_fixed_by_category_witness :
    (∃ row v, generateRow downEnv hugeEstimateIssue true "IMR Sprint 2021-W05-06" issueRemoved
        freshWorld = some (row, v) ∧
      (issueRemoved = issueRemoved → row.Adjusted = 0) ∧
      (minInt ≤ 9223372036854775808 ∧ 9223372036854775808 ≤ maxInt →
        issueRemoved = issueCompleted ∨ issueRemoved = issueNotCompleted →
        row.Adjusted = 9223372036854775808)) ∧
    ∃ row v, generateRow downEnv untaggedIssue true "IMR Sprint 2021-W05-06" issueNotCompleted
        freshWorld = some (row, v) ∧ row.Adjusted = 3 :=
  ⟨adjusted_fixed_by_category downEnv hugeEstimateIssue true "IMR Sprint 2021-W05-06"
      issueRemoved freshWorld 9223372036854775808 (by decide) (by decide),
    (adjusted_fixed_by_category downEnv untaggedIssue true "IMR Sprint 2021-W05-06"
      issueNotCompleted freshWorld 3 (by decide) (by decide)).imp
      (fun _ hrow => hrow.imp (fun _ h => ⟨h.1, h.2.2 (by decide) (Or.inr rfl)⟩))⟩

theorem fillup_congr (env : Env) (m m' : IssuesAdded) (sprintName cat : String)
    (hsame : ∀ k, (m'.lookup k).isSome = (m.lookup k).isSome) (js : List Issue) (w : World) :
    fillup env m' sprintName cat js w = fillup env m sprintName cat js w := by
  induction js generalizing w with
  | nil => rfl
  | cons j js ih =>
    simp only [fillup, hsame j.Key]
    cases generateRow env j (m.lookup j.Key).isSome sprintName cat w with
    | none => rfl
    | some first => simp only [ih]

/-- C16: `ProcessReport` looks at the presence of a key in `IssueKeysAddedDuringSprint`, not
at the boolean under it. A report gives the same result under any map `m` with the
same keys; and with an endpoint that parses, the row of an issue whose key is in the
map with the value false has the estimate in Added and 0 in Commited. -/
theorem added_is_decided_by_presence (env : Env) (report : ReportResponse) (w : World)
    (m : IssuesAdded)
    (hurl : (env.urlParse env.EndpointPrefix).isSome = true)
    (hsame : ∀ k, (m.lookup k).isSome =
      (report.Contents.IssueKeysAddedDuringSprint.lookup k).isSome) :
    ProcessReport env
        { report with Contents := { report.Contents with IssueKeysAddedDuringSprint := m } } w =
        ProcessReport env report w ∧
      ∃ rows v, ProcessReport env report w = some ((rows, none), v) ∧
        List.Forall₂
          (fun j row =>
            report.Contents.IssueKeysAddedDuringSprint.lookup j.Key = some false →
              row.Added = j.EstimateStatistic.StatFieldValue.Value.toInt ∧ row.Commited = 0)
          (report.Contents.CompletedIssues ++
            report.Contents.IssuesNotCompletedInCurrentSprint ++ report.Contents.PuntedIssues)
          rows := by
  constructor
  · simp only [ProcessReport, fillup_congr env _ m _ _ hsame]
  · obtain ⟨u, hu⟩ := Option.isSome_iff_exists.mp hurl
    apply ProcessReport_rows env report w u hu
    intro j cat w row v hrow hfalse
    rw [generateRow_eq env j _ _ cat w u hu] at hrow
    cases hrow
    simp [hfalse]

/-- C16 at a concrete input: "PROJ-2" is in the map with the value false; the other map
has it with the value true. -/
theorem added_is_decided_by_presence_witness :
    ProcessReport downEnv
        { sampleReport with
          Contents :=
            { sampleReport.Contents with IssueKeysAddedDuringSprint := [("PROJ-2", true)] } }
        freshWorld =
        ProcessReport downEnv sampleReport freshWorld ∧
      ∃ rows v, ProcessReport downEnv sampleReport freshWorld = some ((rows, none), v) ∧
        List.Forall₂
          (fun j row =>
            sampleReport.Contents.IssueKeysAddedDuringSprint.lookup j.Key = some false →
              row.Added = j.EstimateStatistic.StatFieldValue.Value.toInt ∧ row.Commited = 0)
          (sampleReport.Contents.CompletedIssues ++
            sampleReport.Contents.IssuesNotCompletedInCurrentSprint ++
            sampleReport.Contents.PuntedIssues)
          rows :=
  added_is_decided_by_presence downEnv sampleReport freshWorld [("PROJ-2", true)] (by decide)
    (fun k => by
      by_cases hk : k = "PROJ-2"
      · subst hk
        decide
      · have hb : (k == "PROJ-2") = false := by simpa using hk
        simp [sampleReport, List.lookup, hb])

end JiraMetrics
